import Mathlib

set_option maxRecDepth 4000000

/-!
Verification of the CPT-V2 commitment-planning solver (src/lib/solver.js).

The development shallowly embeds the solver in Lean: JavaScript numbers are
modelled as exact rationals, JS arrays indexed by year as functions from ℕ to ℚ
(zero outside the written range, matching the zero-filled arrays of the
source), and the imperative loops as left folds over index ranges.  The
embedding follows the second (current) version of the solver module, the one
with manual-override support.
-/

namespace CPT

/-- Per-category triple of rational values (used for ratios and breakdowns,
in the order secondaries, pe, vc). -/
structure CatQ where
  secondaries : ℚ
  pe : ℚ
  vc : ℚ
  deriving DecidableEq

/-- Per-category selection flags (selectedCategories). -/
structure CatB where
  secondaries : Bool
  pe : Bool
  vc : Bool
  deriving DecidableEq

/-- Per-category optional manual overrides for a single planning year. -/
structure CatO where
  secondaries : Option ℚ
  pe : Option ℚ
  vc : Option ℚ
  deriving DecidableEq

/-- Per-category cashflow (or NAV) profiles. -/
structure CatP where
  secondaries : List ℚ
  pe : List ℚ
  vc : List ℚ
  deriving DecidableEq

/-- Allocation rules: the target ratio triple for each of the three phases. -/
structure Rules where
  phase1 : CatQ
  phase2 : CatQ
  phase3 : CatQ
  deriving DecidableEq

/-- One iteration of the main loop of calculateCommitmentProjection: process
profile offset `i`, writing `cashflows[startYearIndex+i]` and
`unfunded[startYearIndex+i]` and accumulating `cumulativeCalled` (the third
state component), exactly as the body of the source loop. -/
def projStep (commitmentAmount : ℚ) (profile : List ℚ) (startYearIndex horizon : ℕ)
    (st : (ℕ → ℚ) × (ℕ → ℚ) × ℚ) (i : ℕ) : (ℕ → ℚ) × (ℕ → ℚ) × ℚ :=
  let yearIndex := startYearIndex + i
  if yearIndex < horizon then
    let upd :=
      if hi : i < profile.length then
        let p := profile.get ⟨i, hi⟩
        (Function.update st.1 yearIndex (commitmentAmount * p),
          if p < 0 then st.2.2 + |commitmentAmount * p| else st.2.2)
      else (st.1, st.2.2)
    (upd.1, Function.update st.2.1 yearIndex (max 0 (commitmentAmount - upd.2)), upd.2)
  else st

/-- The main loop of calculateCommitmentProjection after `n` iterations,
starting from the zero-filled arrays and zero cumulativeCalled. -/
def projLoop (commitmentAmount : ℚ) (profile : List ℚ) (startYearIndex horizon : ℕ)
    (n : ℕ) : (ℕ → ℚ) × (ℕ → ℚ) × ℚ :=
  (List.range n).foldl (projStep commitmentAmount profile startYearIndex horizon)
    ((fun _ => 0), (fun _ => 0), 0)

/-- calculateCommitmentProjection from the solver module: the cashflow and
unfunded series of a single commitment.  The two returned arrays (modelled as
functions, zero outside the written range) are built exactly as in the source:
the main loop over `i < horizon`, then the second fill loop that pins
`unfunded` for the years after the profile is exhausted. -/
def calculateCommitmentProjection (commitmentAmount : ℚ) (profile : List ℚ)
    (startYearIndex horizon : ℕ) : (ℕ → ℚ) × (ℕ → ℚ) :=
  let st := projLoop commitmentAmount profile startYearIndex horizon horizon
  let uf := (List.range horizon).foldl (fun uf t =>
    if startYearIndex + profile.length ≤ t then
      Function.update uf t (max 0 (commitmentAmount - st.2.2))
    else uf) st.2.1
  (st.1, uf)

/-- The contribution of one profile entry to cumulativeCalled (only negative
entries count, by their absolute value scaled by the amount). -/
def callPart (amount r : ℚ) : ℚ := if r < 0 then |amount * r| else 0

/-- cumulativeCalled after the first `n` profile entries have been processed. -/
def cumCalled (amount : ℚ) (profile : List ℚ) (n : ℕ) : ℚ :=
  ((profile.take n).map (callPart amount)).sum

/-- Closed form of the cashflow series produced by calculateCommitmentProjection. -/
def cfClosed (amount : ℚ) (profile : List ℚ) (s h t : ℕ) : ℚ :=
  if s ≤ t ∧ t < h ∧ t - s < profile.length then amount * profile.getD (t - s) 0 else 0

/-- Closed form of the unfunded series produced by calculateCommitmentProjection. -/
def ufClosed (amount : ℚ) (profile : List ℚ) (s h t : ℕ) : ℚ :=
  if s ≤ t ∧ t < h then
    max 0 (amount - cumCalled amount profile (min (t - s + 1) profile.length))
  else 0

theorem cumCalled_zero (a : ℚ) (p : List ℚ) : cumCalled a p 0 = 0 := by
  simp [cumCalled]

theorem cumCalled_succ (a : ℚ) (p : List ℚ) (n : ℕ) (hn : n < p.length) :
    cumCalled a p (n + 1) = cumCalled a p n + callPart a (p.get ⟨n, hn⟩) := by
  unfold cumCalled
  rw [List.take_succ, List.map_append, List.sum_append]
  simp [List.getElem?_eq_getElem hn, List.get_eq_getElem]

theorem cumCalled_of_le (a : ℚ) (p : List ℚ) {n : ℕ} (hn : p.length ≤ n) :
    cumCalled a p n = cumCalled a p p.length := by
  unfold cumCalled
  rw [List.take_of_length_le hn, List.take_of_length_le (le_refl _)]

theorem callPart_nonneg (a r : ℚ) : 0 ≤ callPart a r := by
  unfold callPart
  split <;> [exact abs_nonneg _; exact le_refl 0]

theorem cumCalled_nonneg (a : ℚ) (p : List ℚ) (n : ℕ) : 0 ≤ cumCalled a p n := by
  refine List.sum_nonneg ?_
  intro x hx
  obtain ⟨r, _, rfl⟩ := List.mem_map.mp hx
  exact callPart_nonneg a r

theorem cumCalled_mono (a : ℚ) (p : List ℚ) {m n : ℕ} (h : m ≤ n) :
    cumCalled a p m ≤ cumCalled a p n := by
  unfold cumCalled
  rw [show n = m + (n - m) by omega, List.take_add, List.map_append, List.sum_append]
  have h2 : 0 ≤ (((p.drop m).take (n - m)).map (callPart a)).sum := by
    refine List.sum_nonneg ?_
    intro x hx
    obtain ⟨r, _, rfl⟩ := List.mem_map.mp hx
    exact callPart_nonneg a r
  linarith

theorem projLoop_succ (a : ℚ) (p : List ℚ) (s h n : ℕ) :
    projLoop a p s h (n + 1) = projStep a p s h (projLoop a p s h n) n := by
  unfold projLoop
  rw [List.range_succ, List.foldl_append, List.foldl_cons, List.foldl_nil]

/-- Full characterisation of the state of the main projection loop after `n`
iterations: cumulativeCalled, the cashflow array and the unfunded array. -/
theorem projLoop_spec (a : ℚ) (p : List ℚ) (s h : ℕ) : ∀ n,
    (projLoop a p s h n).2.2 = cumCalled a p (min n (min p.length (h - s))) ∧
    (∀ t, (projLoop a p s h n).1 t =
      if s ≤ t ∧ t < h ∧ t - s < n ∧ t - s < p.length then a * p.getD (t - s) 0 else 0) ∧
    (∀ t, (projLoop a p s h n).2.1 t =
      if s ≤ t ∧ t < h ∧ t - s < n then
        max 0 (a - cumCalled a p (min (t - s + 1) p.length)) else 0) := by
  intro n
  induction n with
  | zero =>
    refine ⟨by simp [projLoop, cumCalled], fun t => ?_, fun t => ?_⟩ <;>
      simp [projLoop]
  | succ n ih =>
    obtain ⟨ihc, ihf, ihu⟩ := ih
    rw [projLoop_succ]
    unfold projStep
    by_cases hy : s + n < h
    · simp only [if_pos hy]
      by_cases hl : n < p.length
      · simp only [dif_pos hl]
        have hcum : (if p.get ⟨n, hl⟩ < 0 then (projLoop a p s h n).2.2 + |a * p.get ⟨n, hl⟩|
            else (projLoop a p s h n).2.2) = cumCalled a p (n + 1) := by
          rw [ihc, cumCalled_succ a p n hl]
          have hmin : min n (min p.length (h - s)) = n := by omega
          rw [hmin]
          unfold callPart
          split <;> simp
        have hmin1 : min (n + 1) (min p.length (h - s)) = n + 1 := by omega
        refine ⟨?_, fun t => ?_, fun t => ?_⟩
        · rw [hmin1]; exact hcum
        · rcases eq_or_ne t (s + n) with rfl | hne
          · rw [Function.update_same]
            have hc : s ≤ s + n ∧ s + n < h ∧ s + n - s < n + 1 ∧ s + n - s < p.length := by
              omega
            rw [if_pos hc]
            have hns : s + n - s = n := by omega
            rw [hns, List.getD_eq_getElem _ _ hl, List.get_eq_getElem]
          · rw [Function.update_noteq hne, ihf t]
            have hiff : (s ≤ t ∧ t < h ∧ t - s < n ∧ t - s < p.length) ↔
                (s ≤ t ∧ t < h ∧ t - s < n + 1 ∧ t - s < p.length) := by omega
            rw [if_congr hiff rfl rfl]
        · rcases eq_or_ne t (s + n) with rfl | hne
          · rw [Function.update_same, hcum]
            have hc : s ≤ s + n ∧ s + n < h ∧ s + n - s < n + 1 := by omega
            have hmin2 : min (s + n - s + 1) p.length = n + 1 := by omega
            rw [if_pos hc, hmin2]
          · rw [Function.update_noteq hne, ihu t]
            have hiff : (s ≤ t ∧ t < h ∧ t - s < n) ↔ (s ≤ t ∧ t < h ∧ t - s < n + 1) := by
              omega
            rw [if_congr hiff rfl rfl]
      · simp only [dif_neg hl]
        have hll : p.length ≤ n := by omega
        have hcum2 : min n (min p.length (h - s)) = min p.length (h - s) := by omega
        have hcum3 : min (n + 1) (min p.length (h - s)) = min p.length (h - s) := by omega
        have hplen : min p.length (h - s) = p.length := by omega
        refine ⟨by rw [ihc, hcum2, hcum3], fun t => ?_, fun t => ?_⟩
        · rw [ihf t]
          have : (s ≤ t ∧ t < h ∧ t - s < n ∧ t - s < p.length) ↔
              (s ≤ t ∧ t < h ∧ t - s < n + 1 ∧ t - s < p.length) := by omega
          rw [if_congr this rfl rfl]
        · rcases eq_or_ne t (s + n) with rfl | hne
          · rw [Function.update_same, ihc, hcum2, hplen]
            have hc : s ≤ s + n ∧ s + n < h ∧ s + n - s < n + 1 := by omega
            have hmin2 : min (s + n - s + 1) p.length = p.length := by omega
            rw [if_pos hc, hmin2]
          · rw [Function.update_noteq hne, ihu t]
            have hiff : (s ≤ t ∧ t < h ∧ t - s < n) ↔ (s ≤ t ∧ t < h ∧ t - s < n + 1) := by
              omega
            rw [if_congr hiff rfl rfl]
    · simp only [if_neg hy]
      have hcum2 : min n (min p.length (h - s)) = min (n + 1) (min p.length (h - s)) := by omega
      refine ⟨by rw [ihc, hcum2], fun t => ?_, fun t => ?_⟩
      · rw [ihf t]
        have : (s ≤ t ∧ t < h ∧ t - s < n ∧ t - s < p.length) ↔
            (s ≤ t ∧ t < h ∧ t - s < n + 1 ∧ t - s < p.length) := by omega
        rw [if_congr this rfl rfl]
      · rw [ihu t]
        have : (s ≤ t ∧ t < h ∧ t - s < n) ↔ (s ≤ t ∧ t < h ∧ t - s < n + 1) := by omega
        rw [if_congr this rfl rfl]

/-- The cashflow series of calculateCommitmentProjection in closed form. -/
theorem calc_fst (a : ℚ) (p : List ℚ) (s h t : ℕ) :
    (calculateCommitmentProjection a p s h).1 t = cfClosed a p s h t := by
  show (projLoop a p s h h).1 t = cfClosed a p s h t
  rw [(projLoop_spec a p s h h).2.1 t]
  unfold cfClosed
  have : (s ≤ t ∧ t < h ∧ t - s < h ∧ t - s < p.length) ↔
      (s ≤ t ∧ t < h ∧ t - s < p.length) := by omega
  rw [if_congr this rfl rfl]

/-- The unfunded series of calculateCommitmentProjection in closed form. -/
theorem calc_snd (a : ℚ) (p : List ℚ) (s h t : ℕ) :
    (calculateCommitmentProjection a p s h).2 t = ufClosed a p s h t := by
  have hfill : ∀ m, ∀ u,
      ((List.range m).foldl (fun uf t =>
        if s + p.length ≤ t then
          Function.update uf t (max 0 (a - (projLoop a p s h h).2.2))
        else uf) (projLoop a p s h h).2.1) u =
      if s + p.length ≤ u ∧ u < m then max 0 (a - (projLoop a p s h h).2.2)
      else (projLoop a p s h h).2.1 u := by
    intro m
    induction m with
    | zero => intro u; simp
    | succ m ihm =>
      intro u
      rw [List.range_succ, List.foldl_append, List.foldl_cons, List.foldl_nil]
      by_cases hm : s + p.length ≤ m
      · simp only [if_pos hm]
        rcases eq_or_ne u m with heq | hne
        · rw [heq, Function.update_same,
            if_pos (show s + p.length ≤ m ∧ m < m + 1 by omega)]
        · rw [Function.update_noteq hne, ihm u]
          have hiff : (s + p.length ≤ u ∧ u < m) ↔ (s + p.length ≤ u ∧ u < m + 1) := by
            omega
          rw [if_congr hiff rfl rfl]
      · simp only [if_neg hm]
        rw [ihm u]
        have hiff : (s + p.length ≤ u ∧ u < m) ↔ (s + p.length ≤ u ∧ u < m + 1) := by omega
        rw [if_congr hiff rfl rfl]
  show ((List.range h).foldl _ (projLoop a p s h h).2.1) t = ufClosed a p s h t
  rw [hfill h t, (projLoop_spec a p s h h).1]
  unfold ufClosed
  by_cases hc : s + p.length ≤ t ∧ t < h
  · rw [if_pos hc]
    have hin : s ≤ t ∧ t < h := by omega
    rw [if_pos hin]
    have h1 : min h (min p.length (h - s)) = p.length := by omega
    have h2 : min (t - s + 1) p.length = p.length := by omega
    rw [h1, h2]
  · rw [if_neg hc, (projLoop_spec a p s h h).2.2 t]
    by_cases hin : s ≤ t ∧ t < h
    · have hin3 : s ≤ t ∧ t < h ∧ t - s < h := by omega
      rw [if_pos hin3, if_pos hin]
    · have hin3 : ¬(s ≤ t ∧ t < h ∧ t - s < h) := by omega
      rw [if_neg hin3, if_neg hin]

theorem ufClosed_nonneg (a : ℚ) (p : List ℚ) (s h t : ℕ) : 0 ≤ ufClosed a p s h t := by
  unfold ufClosed
  split
  · exact le_max_left 0 _
  · exact le_refl 0

theorem ufClosed_le_amount (a : ℚ) (p : List ℚ) (s h t : ℕ) (ha : 0 ≤ a) :
    ufClosed a p s h t ≤ a := by
  unfold ufClosed
  split
  · have := cumCalled_nonneg a p (min (t - s + 1) p.length)
    have h2 : a - cumCalled a p (min (t - s + 1) p.length) ≤ a := by linarith
    exact max_le ha h2
  · exact ha

theorem cfClosed_eq_zero_of_lt (a : ℚ) (p : List ℚ) (s h t : ℕ) (ht : t < s) :
    cfClosed a p s h t = 0 := by
  unfold cfClosed
  rw [if_neg (by omega)]

theorem ufClosed_eq_zero_of_lt (a : ℚ) (p : List ℚ) (s h t : ℕ) (ht : t < s) :
    ufClosed a p s h t = 0 := by
  unfold ufClosed
  rw [if_neg (by omega)]

theorem cfClosed_eq_zero_of_ge (a : ℚ) (p : List ℚ) (s h t : ℕ) (ht : h ≤ t) :
    cfClosed a p s h t = 0 := by
  unfold cfClosed
  rw [if_neg (by omega)]

theorem ufClosed_eq_zero_of_ge (a : ℚ) (p : List ℚ) (s h t : ℕ) (ht : h ≤ t) :
    ufClosed a p s h t = 0 := by
  unfold ufClosed
  rw [if_neg (by omega)]

theorem ufClosed_antitone (a : ℚ) (p : List ℚ) (s h t₁ t₂ : ℕ)
    (h1 : s ≤ t₁) (h12 : t₁ ≤ t₂) (h2 : t₂ < h) :
    ufClosed a p s h t₂ ≤ ufClosed a p s h t₁ := by
  unfold ufClosed
  rw [if_pos (by omega : s ≤ t₁ ∧ t₁ < h), if_pos (by omega : s ≤ t₂ ∧ t₂ < h)]
  have hm : cumCalled a p (min (t₁ - s + 1) p.length) ≤
      cumCalled a p (min (t₂ - s + 1) p.length) :=
    cumCalled_mono a p (by omega)
  exact max_le_max (le_refl 0) (by linarith)

theorem cumCalled_smul (l b : ℚ) (hl : 0 ≤ l) (p : List ℚ) (n : ℕ) :
    cumCalled (l * b) p n = l * cumCalled b p n := by
  unfold cumCalled
  induction p.take n with
  | nil => simp
  | cons r rs ih =>
    simp only [List.map_cons, List.sum_cons, ih]
    unfold callPart
    have habs : |l * b * r| = l * |b * r| := by
      rw [mul_assoc, abs_mul, abs_of_nonneg hl]
    split
    · rw [habs]; ring
    · ring

theorem cfClosed_smul (l b : ℚ) (p : List ℚ) (s h t : ℕ) :
    cfClosed (l * b) p s h t = l * cfClosed b p s h t := by
  unfold cfClosed
  split <;> ring

theorem ufClosed_smul (l b : ℚ) (hl : 0 ≤ l) (p : List ℚ) (s h t : ℕ) :
    ufClosed (l * b) p s h t = l * ufClosed b p s h t := by
  unfold ufClosed
  rw [cumCalled_smul l b hl]
  split
  · rw [mul_max_of_nonneg _ _ hl, mul_zero, mul_sub]
  · rw [mul_zero]

/- ======================  the solver module  ====================== -/

/-- The input record of solveCPT.  `horizon`, `planningHorizon` and
`projectionHorizon` are optional, mirroring the parameters of the source
(`projectionHorizon = 50` is the destructuring default).  `manualOverrides` maps
a 0-based planning-year index to the per-category overrides for that year (the
absent-object and empty-object cases of the source behave identically, so both
are modelled by a triple of `none`s). -/
structure SolverInput where
  availableCapital : ℚ
  startYear : ℤ
  horizon : Option ℕ
  planningHorizon : Option ℕ
  projectionHorizon : Option ℕ
  profiles : CatP
  navProfiles : CatP
  rules : Rules
  selectedCategories : CatB
  maxYearlyChange : ℚ
  firstYearCap : ℚ
  manualOverrides : ℕ → CatO

/-- JS falsy-or used for `planningHorizon || horizon || 15`: both `undefined`
and `0` fall through. -/
def jsOr (a : Option ℕ) (b : ℕ) : ℕ :=
  match a with
  | some n => if n = 0 then b else n
  | none => b

/-- pHorizon in solveCPT: `planningHorizon || horizon || 15`. -/
def pHorizonOf (inp : SolverInput) : ℕ := jsOr inp.planningHorizon (jsOr inp.horizon 15)

/-- Effective projectionHorizon: the parameter with destructuring default 50. -/
def projectionHorizonOf (inp : SolverInput) : ℕ := inp.projectionHorizon.getD 50

/-- totalHorizon in solveCPT: `Math.max(pHorizon, projectionHorizon)`. -/
def totalHorizonOf (inp : SolverInput) : ℕ := max (pHorizonOf inp) (projectionHorizonOf inp)

/-- Phase selection for a 0-based planning-year index: yearNum = yearIdx+1,
phase1 for yearNum ≤ 5, phase2 for yearNum ≤ 10, phase3 otherwise. -/
def phaseOf (yearIdx : ℕ) : ℕ :=
  if yearIdx + 1 ≤ 5 then 1 else if yearIdx + 1 ≤ 10 then 2 else 3

/-- rules[phase].ratios lookup. -/
def phaseRatios (rules : Rules) (phase : ℕ) : CatQ :=
  if phase = 1 then rules.phase1 else if phase = 2 then rules.phase2 else rules.phase3

/-- ratioSum of the planning loop: the raw ratios of the selected categories
summed. -/
def selRatioSum (sel : CatB) (raw : CatQ) : ℚ :=
  (if sel.secondaries then raw.secondaries else 0) + (if sel.pe then raw.pe else 0) +
    (if sel.vc then raw.vc else 0)

/-- The ratio renormalisation of step 1 of the planning loop: zero out
unselected categories and renormalise over the selected ones when their raw
sum is positive, otherwise all ratios stay 0. -/
def ratiosFor (sel : CatB) (raw : CatQ) : CatQ :=
  if 0 < selRatioSum sel raw then
    ⟨if sel.secondaries then raw.secondaries / selRatioSum sel raw else 0,
     if sel.pe then raw.pe / selRatioSum sel raw else 0,
     if sel.vc then raw.vc / selRatioSum sel raw else 0⟩
  else ⟨0, 0, 0⟩

/-- forcedBreakdown from the manual overrides of one year. -/
def forcedOf (ov : CatO) : CatQ := ⟨ov.secondaries.getD 0, ov.pe.getD 0, ov.vc.getD 0⟩

/-- hasOverride: some category of this year carries an override. -/
def hasOv (ov : CatO) : Bool := ov.secondaries.isSome || ov.pe.isSome || ov.vc.isSome

/-- activeRatios before renormalisation: the year ratios with overridden
categories zeroed out. -/
def activePre (ov : CatO) (r : CatQ) : CatQ :=
  ⟨if ov.secondaries.isSome then 0 else r.secondaries,
   if ov.pe.isSome then 0 else r.pe,
   if ov.vc.isSome then 0 else r.vc⟩

/-- Sum of the three components of a category triple. -/
def catQsum (c : CatQ) : ℚ := c.secondaries + c.pe + c.vc

/-- Renormalise the active ratios to sum to 1 when their sum is positive
(otherwise they are left untouched, as in the source). -/
def normalizeActive (pre : CatQ) : CatQ :=
  let s := catQsum pre
  if 0 < s then ⟨pre.secondaries / s, pre.pe / s, pre.vc / s⟩ else pre

/-- newBreakdown inside isFeasible: forced breakdown plus the additional
amount split by the active ratios. -/
def addBd (forced : CatQ) (a : ℚ) (r : CatQ) : CatQ :=
  ⟨forced.secondaries + a * r.secondaries, forced.pe + a * r.pe, forced.vc + a * r.vc⟩

/-- Pointwise sum of two year-indexed series. -/
def addF (f g : ℕ → ℚ) : ℕ → ℚ := fun t => f t + g t

/-- The contribution of one category to the new flows: a projection when its
breakdown is positive, nothing otherwise (the `breakdowns[cat] > 0` guard). -/
def catContrib (b : ℚ) (p : List ℚ) (s h : ℕ) : (ℕ → ℚ) × (ℕ → ℚ) :=
  if 0 < b then calculateCommitmentProjection b p s h else ((fun _ => 0), (fun _ => 0))

/-- Pointwise sum of two (cashflows, unfunded) pairs. -/
def pairAdd (x y : (ℕ → ℚ) × (ℕ → ℚ)) : (ℕ → ℚ) × (ℕ → ℚ) := (addF x.1 y.1, addF x.2 y.2)

/-- newFlows / newUnfunded of isFeasible: the summed projections of the three
categories of a breakdown. -/
def sumProjections (P : CatP) (bd : CatQ) (s h : ℕ) : (ℕ → ℚ) × (ℕ → ℚ) :=
  pairAdd (catContrib bd.secondaries P.secondaries s h)
    (pairAdd (catContrib bd.pe P.pe s h) (catContrib bd.vc P.vc s h))

/-- One year of the integrity walk of isFeasible: advance the running balance
with the locked and new flows of year `t` and, from the commitment year on,
require the balance to cover total unfunded and to stay non-negative. -/
def integrityStep (lockedF lockedU nf nu : ℕ → ℚ) (yearIdx : ℕ) (st : ℚ × Bool)
    (t : ℕ) : ℚ × Bool :=
  let bal := st.1 + lockedF t + nf t
  (bal, st.2 && (decide (t < yearIdx) ||
    (decide (lockedU t + nu t ≤ bal) && decide (0 ≤ bal))))

/-- The integrity walk of isFeasible: accumulate the running balance over every
year of the projection, starting from availableCapital. -/
def checkIntegrity (capital : ℚ) (lockedF lockedU nf nu : ℕ → ℚ) (yearIdx h : ℕ) : Bool :=
  ((List.range h).foldl (integrityStep lockedF lockedU nf nu yearIdx) (capital, true)).2

/-- Cumulative sum of a year-indexed series through year `t` (inclusive). -/
def cumF (f : ℕ → ℚ) (t : ℕ) : ℚ := ((List.range (t + 1)).map f).sum

/-- isFeasible of the planning loop (manual-override version): additionalAmount
is split over the active ratios on top of the forced breakdown, projected, and
checked against the locked-in state. -/
def isFeasibleB (capital : ℚ) (P : CatP) (lockedF lockedU : ℕ → ℚ) (yearIdx h : ℕ)
    (forced active : CatQ) (a : ℚ) : Bool :=
  let nb := addBd forced a active
  let pr := sumProjections P nb yearIdx h
  checkIntegrity capital lockedF lockedU pr.1 pr.2 yearIdx h

/-- The 20-iteration binary search of the solver: state (low, high, best). -/
def binarySearchBest (feasible : ℚ → Bool) (hi : ℚ) : ℚ :=
  ((List.range 20).foldl (fun st _ =>
    let mid := (st.1 + st.2.1) / 2
    if feasible mid then (mid, st.2.1, mid) else (st.1, mid, st.2.2))
    ((0 : ℚ), hi, (0 : ℚ))).2.2

/-- Math.floor(x / 1000) * 1000. -/
def floor1000 (x : ℚ) : ℚ := ((⌊x / 1000⌋ : ℤ) : ℚ) * 1000

/-- The bound on the additional amount for one planning year (smoothing caps,
restart floor and the `availableCapital * 5` hard cap). -/
def maxAdditionalOf (capital firstYearCap maxYearlyChange : ℚ) (smoothing : Bool)
    (yearIdx : ℕ) (lastYearCommitment forcedTotal : ℚ) : ℚ :=
  let base := capital * 2
  let m :=
    if smoothing then
      if yearIdx = 0 then max 0 (capital * firstYearCap - forcedTotal)
      else
        max 0 (max (lastYearCommitment * (1 + maxYearlyChange)) (capital * (5 / 100)) -
          forcedTotal)
    else base
  min m (capital * 5)

/-- One commitment row of the plan. -/
structure Commitment where
  year : ℤ
  amount : ℚ
  breakdown : CatQ
  ratios : CatQ
  phase : ℕ
  isManual : Bool
  deriving DecidableEq

/-- All-zero commitment (used as a fallback default). -/
def defCommitment : Commitment :=
  { year := 0, amount := 0, breakdown := ⟨0, 0, 0⟩, ratios := ⟨0, 0, 0⟩, phase := 0,
    isManual := false }

/-- Running state of the planning loop: locked-in projected cashflows and
unfunded, the commitments made so far, and lastYearCommitment. -/
structure LoopState where
  flows : ℕ → ℚ
  unf : ℕ → ℚ
  commitments : List Commitment
  lastYearCommitment : ℚ

/-- Initial state of the planning loop. -/
def initState : LoopState :=
  { flows := fun _ => 0, unf := fun _ => 0, commitments := [], lastYearCommitment := 0 }

/-- The decision of one planning year: (optimal, breakdown, isManual).  The
all-overridden branch takes the forced values unchecked; otherwise the binary
search finds the additional amount, floored to 1,000, on top of the forced
breakdown. -/
def yearDecision (inp : SolverInput) (smoothing : Bool) (h : ℕ) (st : LoopState)
    (yearIdx : ℕ) : ℚ × CatQ × Bool :=
  let ratios := ratiosFor inp.selectedCategories (phaseRatios inp.rules (phaseOf yearIdx))
  let ov := inp.manualOverrides yearIdx
  let forced := forcedOf ov
  let forcedTotal := catQsum forced
  let pre := activePre ov ratios
  let active := normalizeActive pre
  if catQsum pre = 0 ∧ hasOv ov = true then (forcedTotal, forced, true)
  else
    let hi := maxAdditionalOf inp.availableCapital inp.firstYearCap inp.maxYearlyChange
      smoothing yearIdx st.lastYearCommitment forcedTotal
    let bestAdd := floor1000 (binarySearchBest
      (isFeasibleB inp.availableCapital inp.profiles st.flows st.unf yearIdx h forced active)
      hi)
    (forcedTotal + bestAdd, addBd forced bestAdd active, false)

/-- The commitment row pushed for one planning year. -/
def yearCommitment (inp : SolverInput) (smoothing : Bool) (h : ℕ) (st : LoopState)
    (yearIdx : ℕ) : Commitment :=
  { year := inp.startYear + yearIdx,
    amount := (yearDecision inp smoothing h st yearIdx).1,
    breakdown := (yearDecision inp smoothing h st yearIdx).2.1,
    ratios := ratiosFor inp.selectedCategories (phaseRatios inp.rules (phaseOf yearIdx)),
    phase := phaseOf yearIdx,
    isManual := (yearDecision inp smoothing h st yearIdx).2.2 }

/-- One iteration of the planning loop (one planning year): determine ratios,
apply overrides, search the additional amount, store the commitment and update
the locked-in projections. -/
def yearStep (inp : SolverInput) (smoothing : Bool) (h : ℕ) (st : LoopState)
    (yearIdx : ℕ) : LoopState :=
  let res := yearDecision inp smoothing h st yearIdx
  let upd :=
    if 0 < res.1 then sumProjections inp.profiles res.2.1 yearIdx h
    else ((fun _ => 0), (fun _ => 0))
  { flows := addF st.flows upd.1,
    unf := addF st.unf upd.2,
    commitments := st.commitments ++ [yearCommitment inp smoothing h st yearIdx],
    lastYearCommitment := res.1 }

/-- The full planning loop of runSolver. -/
def planLoop (inp : SolverInput) (smoothing : Bool) : LoopState :=
  (List.range (pHorizonOf inp)).foldl
    (yearStep inp smoothing (totalHorizonOf inp)) initState

/-- The liquidity invariant maintained by the planning loop: at every year of
the projection the locked-in unfunded liability is nonnegative and covered by
the running cash balance. -/
def GoodState (capital : ℚ) (h : ℕ) (st : LoopState) : Prop :=
  ∀ t, t < h → 0 ≤ st.unf t ∧ st.unf t ≤ capital + cumF st.flows t

/-- One row of the post-calculation annual report of runSolver. -/
structure ReportRow where
  year : ℤ
  netCashflow : ℚ
  endBalance : ℚ
  totalCommitted : ℚ
  unfunded : ℚ
  breakdown : CatQ
  deriving DecidableEq

/-- The value returned by runSolver. -/
structure SolverResult where
  commitments : List Commitment
  annualReport : List ReportRow
  totalHorizon : ℕ

/-- One iteration of the post-calculation report loop of runSolver. -/
def reportStep (startYear : ℤ) (pH : ℕ) (final : LoopState)
    (st : ℚ × List ReportRow) (t : ℕ) : ℚ × List ReportRow :=
  let netFlow := final.flows t
  let bal := st.1 + netFlow
  let committedAmount :=
    if t < pH then ((final.commitments.get? t).map (·.amount)).getD 0 else 0
  let committedBreakdown :=
    if t < pH then ((final.commitments.get? t).map (·.breakdown)).getD ⟨0, 0, 0⟩
    else ⟨0, 0, 0⟩
  let row : ReportRow :=
    { year := startYear + t, netCashflow := netFlow, endBalance := bal,
      totalCommitted := committedAmount, unfunded := final.unf t,
      breakdown := committedBreakdown }
  (bal, st.2 ++ [row])

/-- The post-calculation report loop of runSolver: running balance over the
locked-in flows, one row per simulated year. -/
def buildReport (capital : ℚ) (startYear : ℤ) (pH tH : ℕ) (final : LoopState) :
    List ReportRow :=
  ((List.range tH).foldl (reportStep startYear pH final) (capital, [])).2

/-- runSolver: the planning loop followed by the post-calculation report. -/
def runSolver (inp : SolverInput) (smoothing : Bool) : SolverResult :=
  let pH := pHorizonOf inp
  let tH := totalHorizonOf inp
  let final := planLoop inp smoothing
  { commitments := final.commitments,
    annualReport := buildReport inp.availableCapital inp.startYear pH tH final,
    totalHorizon := tH }

/-- MOIC of a single cashflow profile (calculateMetrics in the source):
sum of positive entries over sum of absolute negative entries, 0 if no calls. -/
def calculateMetrics (profile : List ℚ) : ℚ :=
  let distributions := (profile.map (fun p => if 0 < p then p else 0)).sum
  let calls := (profile.map (fun p => if p < 0 then |p| else 0)).sum
  if calls = 0 then 0 else distributions / calls

/-- Contribution of one category of one commitment to a report row of the
metrics loop: (yearCalls, yearDist, trueNav), guarded by `breakdown[cat] > 0`
and by the age being within the respective profile. -/
def catRowContrib (b : ℚ) (prof navProf : List ℚ) (age : ℤ) : ℚ × ℚ × ℚ :=
  if 0 < b then
    let cash :=
      if 0 ≤ age ∧ age < (prof.length : ℤ) then
        let val := b * prof.getD age.toNat 0
        if val < 0 then (|val|, (0 : ℚ)) else ((0 : ℚ), val)
      else ((0 : ℚ), (0 : ℚ))
    let nav := if 0 ≤ age ∧ age < (navProf.length : ℤ) then b * navProf.getD age.toNat 0 else 0
    (cash.1, cash.2, nav)
  else (0, 0, 0)

/-- Contribution of one commitment (all three categories) to a report row. -/
def commRowContrib (P NP : CatP) (rYear : ℤ) (c : Commitment) : ℚ × ℚ × ℚ :=
  let age := rYear - c.year
  let s := catRowContrib c.breakdown.secondaries P.secondaries NP.secondaries age
  let p := catRowContrib c.breakdown.pe P.pe NP.pe age
  let v := catRowContrib c.breakdown.vc P.vc NP.vc age
  (s.1 + p.1 + v.1, s.2.1 + p.2.1 + v.2.1, s.2.2 + p.2.2 + v.2.2)

/-- (yearCalls, yearDist, trueNav) of one report row: sum over all commitments. -/
def rowTotals (P NP : CatP) (comms : List Commitment) (rYear : ℤ) : ℚ × ℚ × ℚ :=
  comms.foldl (fun acc c =>
    let x := commRowContrib P NP rYear c
    (acc.1 + x.1, acc.2.1 + x.2.1, acc.2.2 + x.2.2)) (0, 0, 0)

/-- A report row after the metrics loop has attached the cumulative and
presentation fields. -/
structure FullRow where
  year : ℤ
  netCashflow : ℚ
  endBalance : ℚ
  totalCommitted : ℚ
  unfunded : ℚ
  breakdown : CatQ
  nav : ℚ
  cumulativeCommitments : ℚ
  cumulativeCalls : ℚ
  cumulativeDistributions : ℚ
  availableCash : ℚ
  capitalCalled : ℚ
  investedCapital : ℚ
  lockedCapital : ℚ
  totalValue : ℚ
  realizedProfit : ℚ
  deriving DecidableEq

/-- State of the metrics enrichment loop (`result.annualReport.forEach`). -/
structure EnrichState where
  idx : ℕ
  cumCalls : ℚ
  cumDist : ℚ
  cumCommitments : ℚ
  rows : List FullRow

/-- The cumulative accumulators after one iteration of the metrics loop:
(cumulativeCommitments, cumulativeCalls, cumulativeDistributions). -/
def enrichCums (P NP : CatP) (comms : List Commitment) (st : EnrichState)
    (r : ReportRow) : ℚ × ℚ × ℚ :=
  let cumCommitments :=
    match comms.get? st.idx with
    | some c => st.cumCommitments + c.amount
    | none => st.cumCommitments
  let x := rowTotals P NP comms r.year
  (cumCommitments, st.cumCalls + x.1, st.cumDist + x.2.1)

/-- The enriched report row produced by one iteration of the metrics loop. -/
def enrichedRowOf (capital : ℚ) (P NP : CatP) (comms : List Commitment)
    (st : EnrichState) (r : ReportRow) : FullRow :=
  let cs := enrichCums P NP comms st r
  let trueNav := (rowTotals P NP comms r.year).2.2
  let availableCash := capital - cs.1 + cs.2.2
  { year := r.year, netCashflow := r.netCashflow, endBalance := r.endBalance,
    totalCommitted := r.totalCommitted, unfunded := r.unfunded, breakdown := r.breakdown,
    nav := trueNav, cumulativeCommitments := cs.1, cumulativeCalls := cs.2.1,
    cumulativeDistributions := cs.2.2, availableCash := availableCash,
    capitalCalled := cs.2.1, investedCapital := trueNav, lockedCapital := cs.1,
    totalValue := availableCash + cs.1, realizedProfit := cs.2.2 - cs.2.1 }

/-- One iteration of the metrics loop: accumulate cumulative commitments,
calls and distributions, and attach the derived fields to the row. -/
def enrichStep (capital : ℚ) (P NP : CatP) (comms : List Commitment)
    (st : EnrichState) (r : ReportRow) : EnrichState :=
  let cs := enrichCums P NP comms st r
  { idx := st.idx + 1, cumCalls := cs.2.1, cumDist := cs.2.2,
    cumCommitments := cs.1,
    rows := st.rows ++ [enrichedRowOf capital P NP comms st r] }

/-- The full metrics enrichment loop over the annual report. -/
def enrichLoop (capital : ℚ) (P NP : CatP) (comms : List Commitment)
    (rows : List ReportRow) : EnrichState :=
  rows.foldl (enrichStep capital P NP comms) ⟨0, 0, 0, 0, []⟩

/-- Math.min over a list (0 for the empty list, which cannot occur for the
reports produced by the solver since the total horizon is at least 1). -/
def listMinOf (l : List ℚ) : ℚ :=
  match l with
  | [] => 0
  | x :: xs => xs.foldl min x

/-- Math.max over a list (0 for the empty list). -/
def listMaxOf (l : List ℚ) : ℚ :=
  match l with
  | [] => 0
  | x :: xs => xs.foldl max x

/-- The metrics object of the returned plan. -/
structure Metrics where
  totalCommitted : ℚ
  minCash : ℚ
  maxCash : ℚ
  isSmoothed : Bool
  relaxedConstraint : Bool
  categoryMetrics : CatQ
  portfolioMOIC : ℚ
  fullyCommittedYear : Option ℤ
  finalNav : ℚ
  finalCash : ℚ
  finalTotalValue : ℚ
  deriving DecidableEq

/-- The plan returned by solveCPT. -/
structure Plan where
  commitments : List Commitment
  annualReport : List FullRow
  metrics : Metrics

/-- All-zero report row (used as the JS-undefined fallback for an index that
cannot be out of range). -/
def defFullRow : FullRow :=
  { year := 0, netCashflow := 0, endBalance := 0, totalCommitted := 0, unfunded := 0,
    breakdown := ⟨0, 0, 0⟩, nav := 0, cumulativeCommitments := 0, cumulativeCalls := 0,
    cumulativeDistributions := 0, availableCash := 0, capitalCalled := 0,
    investedCapital := 0, lockedCapital := 0, totalValue := 0, realizedProfit := 0 }

/-- Result A of the execution strategy: the smoothed run. -/
def smoothedResult (inp : SolverInput) : SolverResult := runSolver inp true

/-- Result B of the execution strategy: the fully unsmoothed run. -/
def relaxedResult (inp : SolverInput) : SolverResult := runSolver inp false

/-- Total committed of a solver result (`commitments.reduce((s, c) => s + c.amount, 0)`). -/
def totalOf (r : SolverResult) : ℚ := (r.commitments.map (·.amount)).sum

/-- balanceAtPlanEnd of the smoothed run: endBalance at
`min(pHorizon - 1, annualReport.length - 1)`. -/
def balanceAtPlanEnd (inp : SolverInput) : ℚ :=
  let r := smoothedResult inp
  let checkIdx := min (pHorizonOf inp - 1) (r.annualReport.length - 1)
  ((r.annualReport.get? checkIdx).map (·.endBalance)).getD 0

/-- The retry trigger of the execution strategy: end-of-planning balance above
10% of capital and total committed below 80% of capital. -/
def retryTriggered (inp : SolverInput) : Prop :=
  inp.availableCapital * (1 / 10) < balanceAtPlanEnd inp ∧
    totalOf (smoothedResult inp) < inp.availableCapital * (8 / 10)

instance (inp : SolverInput) : Decidable (retryTriggered inp) := by
  unfold retryTriggered; infer_instance

/-- The adoption gate of the execution strategy: the relaxed total exceeds the
smoothed total by more than 20%. -/
def adoptRelaxed (inp : SolverInput) : Prop :=
  totalOf (smoothedResult inp) * (12 / 10) < totalOf (relaxedResult inp)

instance (inp : SolverInput) : Decidable (adoptRelaxed inp) := by
  unfold adoptRelaxed; infer_instance

/-- The execution strategy of solveCPT: pick the smoothed result, retry
unsmoothed when triggered, adopt the relaxed result only past the 20% gate.
The boolean is the `relaxed` flag. -/
def chosen (inp : SolverInput) : SolverResult × Bool :=
  if retryTriggered inp then
    if adoptRelaxed inp then (relaxedResult inp, true) else (smoothedResult inp, false)
  else (smoothedResult inp, false)

/-- solveCPT: the execution strategy followed by the metrics computation. -/
def solveCPT (inp : SolverInput) : Plan :=
  let pick := chosen inp
  let result := pick.1
  let relaxed := pick.2
  let catMetrics : CatQ :=
    ⟨calculateMetrics inp.profiles.secondaries, calculateMetrics inp.profiles.pe,
      calculateMetrics inp.profiles.vc⟩
  let en := enrichLoop inp.availableCapital inp.profiles inp.navProfiles
    result.commitments result.annualReport
  let enriched := en.rows
  let totalCalls := en.cumCalls
  let totalDistributions := en.cumDist
  let finalReportItem := enriched.getD (result.totalHorizon - 1) defFullRow
  let fullyCommittedYear :=
    (enriched.find? (fun r => decide (inp.availableCapital ≤ r.cumulativeCommitments))).map
      (·.year)
  let portfolioMOIC :=
    if 0 < totalCalls then (totalDistributions + finalReportItem.nav) / totalCalls else 0
  { commitments := result.commitments,
    annualReport := enriched,
    metrics :=
      { totalCommitted := (result.commitments.map (·.amount)).sum,
        minCash := listMinOf (enriched.map (·.endBalance)),
        maxCash := listMaxOf (enriched.map (·.endBalance)),
        isSmoothed := !relaxed,
        relaxedConstraint := relaxed,
        categoryMetrics := catMetrics,
        portfolioMOIC := portfolioMOIC,
        fullyCommittedYear := fullyCommittedYear,
        finalNav := finalReportItem.nav,
        finalCash := finalReportItem.endBalance,
        finalTotalValue := finalReportItem.totalValue } }

/- ======================  concrete test inputs  ====================== -/

/-- A year with no manual overrides. -/
def noOv : CatO := ⟨none, none, none⟩

/-- Simple allocation rules: equal thirds in every phase. -/
def rulesThird : Rules :=
  ⟨⟨1 / 3, 1 / 3, 1 / 3⟩, ⟨1 / 3, 1 / 3, 1 / 3⟩, ⟨1 / 3, 1 / 3, 1 / 3⟩⟩

/-- Empty profiles for all categories. -/
def emptyP : CatP := ⟨[], [], []⟩

/-- C1 counterexample input: one planning year, capital 1,000,000, pe selected
with a pure-call profile, and a manual override forcing a pe commitment of
5,000,000 for year 0. -/
def c1cex : SolverInput :=
  { availableCapital := 1000000, startYear := 2026, horizon := none,
    planningHorizon := some 1, projectionHorizon := some 1,
    profiles := ⟨[], [-1], []⟩, navProfiles := emptyP, rules := rulesThird,
    selectedCategories := ⟨false, true, false⟩, maxYearlyChange := 1 / 5,
    firstYearCap := 1 / 4,
    manualOverrides := fun i => if i = 0 then ⟨none, some 5000000, none⟩ else noOv }

/-- C1 witness input: one planning year, capital 1,000, pe selected with an
empty profile, no overrides. -/
def c1wit : SolverInput :=
  { availableCapital := 1000, startYear := 2026, horizon := none,
    planningHorizon := some 1, projectionHorizon := some 1,
    profiles := emptyP, navProfiles := emptyP, rules := rulesThird,
    selectedCategories := ⟨false, true, false⟩, maxYearlyChange := 1 / 5,
    firstYearCap := 1 / 4, manualOverrides := fun _ => noOv }

/-- C2 failing input: capital 10,000,000 with all three categories deselected. -/
def c2bug : SolverInput :=
  { availableCapital := 10000000, startYear := 2026, horizon := none,
    planningHorizon := some 1, projectionHorizon := some 1,
    profiles := emptyP, navProfiles := emptyP, rules := rulesThird,
    selectedCategories := ⟨false, false, false⟩, maxYearlyChange := 1 / 5,
    firstYearCap := 1 / 4, manualOverrides := fun _ => noOv }

/-- C3 witness input: capital 100 with nothing selected (retry triggers but the
relaxed run deploys no more, so the smoothed result is kept). -/
def c3wit : SolverInput :=
  { availableCapital := 100, startYear := 2026, horizon := none,
    planningHorizon := some 1, projectionHorizon := some 1,
    profiles := emptyP, navProfiles := emptyP, rules := rulesThird,
    selectedCategories := ⟨false, false, false⟩, maxYearlyChange := 1 / 5,
    firstYearCap := 1 / 4, manualOverrides := fun _ => noOv }

/-- C4 witness input: override pe at year 0 to 500,000 with only 1,000 of
capital (the feasibility bound would never allow it). -/
def c4wit : SolverInput :=
  { availableCapital := 1000, startYear := 2026, horizon := none,
    planningHorizon := some 1, projectionHorizon := some 1,
    profiles := emptyP, navProfiles := emptyP, rules := rulesThird,
    selectedCategories := ⟨false, true, false⟩, maxYearlyChange := 1 / 5,
    firstYearCap := 1 / 4,
    manualOverrides := fun i => if i = 0 then ⟨none, some 500000, none⟩ else noOv }

/-- C5 counterexample input: override pe at year 0 to 500 (not a multiple of
1,000). -/
def c5cex : SolverInput :=
  { availableCapital := 1000000, startYear := 2026, horizon := none,
    planningHorizon := some 1, projectionHorizon := some 1,
    profiles := emptyP, navProfiles := emptyP, rules := rulesThird,
    selectedCategories := ⟨false, true, false⟩, maxYearlyChange := 1 / 5,
    firstYearCap := 1 / 4,
    manualOverrides := fun i => if i = 0 then ⟨none, some 500, none⟩ else noOv }

/-- C5 witness input: no overrides, capital 2,000. -/
def c5wit : SolverInput :=
  { availableCapital := 2000, startYear := 2026, horizon := none,
    planningHorizon := some 1, projectionHorizon := some 1,
    profiles := emptyP, navProfiles := emptyP, rules := rulesThird,
    selectedCategories := ⟨false, true, false⟩, maxYearlyChange := 1 / 5,
    firstYearCap := 1 / 4, manualOverrides := fun _ => noOv }

/-- C7 counterexample input: secondaries and pe selected, pe overridden to
500,000 with zero capital, so the searched additional amount is 0 and the
selected non-overridden category (secondaries) gets breakdown 0. -/
def c7cex : SolverInput :=
  { availableCapital := 0, startYear := 2026, horizon := none,
    planningHorizon := some 1, projectionHorizon := some 1,
    profiles := emptyP, navProfiles := emptyP, rules := rulesThird,
    selectedCategories := ⟨true, true, false⟩, maxYearlyChange := 1 / 5,
    firstYearCap := 1 / 4,
    manualOverrides := fun i => if i = 0 then ⟨none, some 500000, none⟩ else noOv }

/-- C7 witness input: pe selected alone, call-then-distribute profile, no
overrides. -/
def c7wit : SolverInput :=
  { availableCapital := 1000000, startYear := 2026, horizon := none,
    planningHorizon := some 1, projectionHorizon := some 1,
    profiles := ⟨[], [-1, 2], []⟩, navProfiles := emptyP, rules := rulesThird,
    selectedCategories := ⟨false, true, false⟩, maxYearlyChange := 1 / 5,
    firstYearCap := 1 / 4, manualOverrides := fun _ => noOv }

/-- C9 witness input: capital 7, nothing selected. -/
def c9wit : SolverInput :=
  { availableCapital := 7, startYear := 2026, horizon := none,
    planningHorizon := some 1, projectionHorizon := some 1,
    profiles := emptyP, navProfiles := emptyP, rules := rulesThird,
    selectedCategories := ⟨false, false, false⟩, maxYearlyChange := 1 / 5,
    firstYearCap := 1 / 4, manualOverrides := fun _ => noOv }

/- ==========  the solver with JS-faithful failure semantics (for C6)  ========== -/

/-- Per-category cashflow profiles where a category's profile may be missing
(an `undefined` lookup in the source configuration). -/
structure CatPO where
  secondaries : Option (List ℚ)
  pe : Option (List ℚ)
  vc : Option (List ℚ)
  deriving DecidableEq

/-- solveCPT input with possibly missing cashflow profiles.  All other fields
are as in `SolverInput` (NAV profiles are total: the module always has the
`NAV_PROFILES` default for them). -/
structure SolverInputE where
  availableCapital : ℚ
  startYear : ℤ
  horizon : Option ℕ
  planningHorizon : Option ℕ
  projectionHorizon : Option ℕ
  profiles : CatPO
  navProfiles : CatP
  rules : Rules
  selectedCategories : CatB
  maxYearlyChange : ℚ
  firstYearCap : ℚ
  manualOverrides : ℕ → CatO

/-- pHorizon for the failure-aware input. -/
def pHorizonOfE (inp : SolverInputE) : ℕ := jsOr inp.planningHorizon (jsOr inp.horizon 15)

/-- totalHorizon for the failure-aware input. -/
def totalHorizonOfE (inp : SolverInputE) : ℕ :=
  max (pHorizonOfE inp) (inp.projectionHorizon.getD 50)

/-- Dereferencing a possibly missing profile: a missing profile raises (the
TypeError of accessing `.length` of undefined in the source). -/
def lookupProfile : Option (List ℚ) → Except Unit (List ℚ)
  | some p => Except.ok p
  | none => Except.error ()

/-- Failure-aware category contribution: the profile is dereferenced only when
the category's breakdown is positive, as in the source. -/
def catContribE (b : ℚ) (po : Option (List ℚ)) (s h : ℕ) :
    Except Unit ((ℕ → ℚ) × (ℕ → ℚ)) :=
  if 0 < b then do
    let p ← lookupProfile po
    pure (calculateCommitmentProjection b p s h)
  else pure ((fun _ => 0), (fun _ => 0))

/-- Failure-aware newFlows/newUnfunded of isFeasible. -/
def sumProjectionsE (P : CatPO) (bd : CatQ) (s h : ℕ) :
    Except Unit ((ℕ → ℚ) × (ℕ → ℚ)) := do
  let c1 ← catContribE bd.secondaries P.secondaries s h
  let c2 ← catContribE bd.pe P.pe s h
  let c3 ← catContribE bd.vc P.vc s h
  pure (pairAdd c1 (pairAdd c2 c3))

/-- Failure-aware isFeasible. -/
def isFeasibleE (capital : ℚ) (P : CatPO) (lockedF lockedU : ℕ → ℚ) (yearIdx h : ℕ)
    (forced active : CatQ) (a : ℚ) : Except Unit Bool := do
  let pr ← sumProjectionsE P (addBd forced a active) yearIdx h
  pure (checkIntegrity capital lockedF lockedU pr.1 pr.2 yearIdx h)

/-- Failure-aware 20-iteration binary search. -/
def binarySearchBestE (feasible : ℚ → Except Unit Bool) (hi : ℚ) : Except Unit ℚ := do
  let st ← (List.range 20).foldlM (fun (st : ℚ × ℚ × ℚ) _ => do
    let mid := (st.1 + st.2.1) / 2
    let f ← feasible mid
    pure (if f then (mid, st.2.1, mid) else (st.1, mid, st.2.2))) ((0 : ℚ), hi, (0 : ℚ))
  pure st.2.2

/-- Failure-aware planning-year step. -/
def yearStepE (inp : SolverInputE) (smoothing : Bool) (h : ℕ) (st : LoopState)
    (yearIdx : ℕ) : Except Unit LoopState := do
  let ratios := ratiosFor inp.selectedCategories (phaseRatios inp.rules (phaseOf yearIdx))
  let ov := inp.manualOverrides yearIdx
  let forced := forcedOf ov
  let forcedTotal := catQsum forced
  let pre := activePre ov ratios
  let active := normalizeActive pre
  let res ←
    if catQsum pre = 0 ∧ hasOv ov = true then pure (forcedTotal, forced, true)
    else do
      let hi := maxAdditionalOf inp.availableCapital inp.firstYearCap inp.maxYearlyChange
        smoothing yearIdx st.lastYearCommitment forcedTotal
      let best ← binarySearchBestE (isFeasibleE inp.availableCapital inp.profiles
        st.flows st.unf yearIdx h forced active) hi
      let bestAdd := floor1000 best
      pure (forcedTotal + bestAdd, addBd forced bestAdd active, false)
  let upd ←
    if 0 < res.1 then sumProjectionsE inp.profiles res.2.1 yearIdx h
    else pure ((fun _ => 0), (fun _ => 0))
  pure
    { flows := addF st.flows upd.1,
      unf := addF st.unf upd.2,
      commitments := st.commitments ++
        [{ year := inp.startYear + yearIdx, amount := res.1, breakdown := res.2.1,
           ratios := ratios, phase := phaseOf yearIdx, isManual := res.2.2 }],
      lastYearCommitment := res.1 }

/-- Failure-aware planning loop. -/
def planLoopE (inp : SolverInputE) (smoothing : Bool) : Except Unit LoopState :=
  (List.range (pHorizonOfE inp)).foldlM
    (yearStepE inp smoothing (totalHorizonOfE inp)) initState

/-- Failure-aware runSolver. -/
def runSolverE (inp : SolverInputE) (smoothing : Bool) : Except Unit SolverResult := do
  let final ← planLoopE inp smoothing
  pure
    { commitments := final.commitments,
      annualReport := buildReport inp.availableCapital inp.startYear
        (pHorizonOfE inp) (totalHorizonOfE inp) final,
      totalHorizon := totalHorizonOfE inp }

/-- Failure-aware per-category metrics-row contribution: the cashflow profile
is dereferenced (possibly raising) only when the category's breakdown is
positive, as in the metrics loop of the source. -/
def catRowContribE (b : ℚ) (profO : Option (List ℚ)) (navProf : List ℚ) (age : ℤ) :
    Except Unit (ℚ × ℚ × ℚ) :=
  if 0 < b then do
    let prof ← lookupProfile profO
    let cash :=
      if 0 ≤ age ∧ age < (prof.length : ℤ) then
        let val := b * prof.getD age.toNat 0
        if val < 0 then (|val|, (0 : ℚ)) else ((0 : ℚ), val)
      else ((0 : ℚ), (0 : ℚ))
    let nav := if 0 ≤ age ∧ age < (navProf.length : ℤ) then b * navProf.getD age.toNat 0 else 0
    pure (cash.1, cash.2, nav)
  else pure (0, 0, 0)

/-- Failure-aware commitment contribution to one report row. -/
def commRowContribE (P : CatPO) (NP : CatP) (rYear : ℤ) (c : Commitment) :
    Except Unit (ℚ × ℚ × ℚ) := do
  let age := rYear - c.year
  let s ← catRowContribE c.breakdown.secondaries P.secondaries NP.secondaries age
  let p ← catRowContribE c.breakdown.pe P.pe NP.pe age
  let v ← catRowContribE c.breakdown.vc P.vc NP.vc age
  pure (s.1 + p.1 + v.1, s.2.1 + p.2.1 + v.2.1, s.2.2 + p.2.2 + v.2.2)

/-- Failure-aware row totals. -/
def rowTotalsE (P : CatPO) (NP : CatP) (comms : List Commitment) (rYear : ℤ) :
    Except Unit (ℚ × ℚ × ℚ) :=
  comms.foldlM (fun acc c => do
    let x ← commRowContribE P NP rYear c
    pure (acc.1 + x.1, acc.2.1 + x.2.1, acc.2.2 + x.2.2)) ((0 : ℚ), (0 : ℚ), (0 : ℚ))

/-- Failure-aware metrics enrichment step. -/
def enrichStepE (capital : ℚ) (P : CatPO) (NP : CatP) (comms : List Commitment)
    (st : EnrichState) (r : ReportRow) : Except Unit EnrichState := do
  let cumCommitments :=
    match comms.get? st.idx with
    | some c => st.cumCommitments + c.amount
    | none => st.cumCommitments
  let x ← rowTotalsE P NP comms r.year
  let cumCalls := st.cumCalls + x.1
  let cumDist := st.cumDist + x.2.1
  let trueNav := x.2.2
  let availableCash := capital - cumCommitments + cumDist
  let row : FullRow :=
    { year := r.year, netCashflow := r.netCashflow, endBalance := r.endBalance,
      totalCommitted := r.totalCommitted, unfunded := r.unfunded, breakdown := r.breakdown,
      nav := trueNav, cumulativeCommitments := cumCommitments, cumulativeCalls := cumCalls,
      cumulativeDistributions := cumDist, availableCash := availableCash,
      capitalCalled := cumCalls, investedCapital := trueNav, lockedCapital := cumCommitments,
      totalValue := availableCash + cumCommitments, realizedProfit := cumDist - cumCalls }
  pure
    { idx := st.idx + 1, cumCalls := cumCalls, cumDist := cumDist,
      cumCommitments := cumCommitments, rows := st.rows ++ [row] }

/-- Failure-aware metrics enrichment loop. -/
def enrichLoopE (capital : ℚ) (P : CatPO) (NP : CatP) (comms : List Commitment)
    (rows : List ReportRow) : Except Unit EnrichState :=
  rows.foldlM (enrichStepE capital P NP comms) ⟨0, 0, 0, 0, []⟩

/-- Failure-aware catMetrics: the source computes `calculateMetrics` of all
three cashflow profiles unconditionally, so each profile is dereferenced here
regardless of selection. -/
def catMetricsE (P : CatPO) : Except Unit CatQ := do
  let ps ← lookupProfile P.secondaries
  let pp ← lookupProfile P.pe
  let pv ← lookupProfile P.vc
  pure ⟨calculateMetrics ps, calculateMetrics pp, calculateMetrics pv⟩

/-- solveCPT with JS-faithful failure semantics: any stage that dereferences a
missing profile raises, and the error is surfaced to the caller. -/
def solveCPTE (inp : SolverInputE) : Except Unit Plan := do
  let resA ← runSolverE inp true
  let totalComm := totalOf resA
  let checkIdx := min (pHorizonOfE inp - 1) (resA.annualReport.length - 1)
  let bal := ((resA.annualReport.get? checkIdx).map (·.endBalance)).getD 0
  let pick ←
    if inp.availableCapital * (1 / 10) < bal ∧ totalComm < inp.availableCapital * (8 / 10)
    then do
      let resB ← runSolverE inp false
      pure (if totalComm * (12 / 10) < totalOf resB then (resB, true) else (resA, false))
    else pure (resA, false)
  let result := pick.1
  let relaxed := pick.2
  let catMetrics ← catMetricsE inp.profiles
  let en ← enrichLoopE inp.availableCapital inp.profiles inp.navProfiles
    result.commitments result.annualReport
  let enriched := en.rows
  let finalReportItem := enriched.getD (result.totalHorizon - 1) defFullRow
  let fullyCommittedYear :=
    (enriched.find? (fun r => decide (inp.availableCapital ≤ r.cumulativeCommitments))).map
      (·.year)
  let portfolioMOIC :=
    if 0 < en.cumCalls then (en.cumDist + finalReportItem.nav) / en.cumCalls else 0
  pure
    { commitments := result.commitments,
      annualReport := enriched,
      metrics :=
        { totalCommitted := (result.commitments.map (·.amount)).sum,
          minCash := listMinOf (enriched.map (·.endBalance)),
          maxCash := listMaxOf (enriched.map (·.endBalance)),
          isSmoothed := !relaxed,
          relaxedConstraint := relaxed,
          categoryMetrics := catMetrics,
          portfolioMOIC := portfolioMOIC,
          fullyCommittedYear := fullyCommittedYear,
          finalNav := finalReportItem.nav,
          finalCash := finalReportItem.endBalance,
          finalTotalValue := finalReportItem.totalValue } }

/-- C6 counterexample input: negative availableCapital (structurally invalid
per the claim) but all profiles present. -/
def c6neg : SolverInputE :=
  { availableCapital := -1000, startYear := 2026, horizon := none,
    planningHorizon := some 1, projectionHorizon := some 1,
    profiles := ⟨some [], some [], some []⟩, navProfiles := emptyP, rules := rulesThird,
    selectedCategories := ⟨false, false, false⟩, maxYearlyChange := 1 / 5,
    firstYearCap := 1 / 4, manualOverrides := fun _ => noOv }

/-- C6 degenerate input: zero capital and no categories selected. -/
def c6deg : SolverInputE :=
  { availableCapital := 0, startYear := 2026, horizon := none,
    planningHorizon := some 1, projectionHorizon := some 1,
    profiles := ⟨some [], some [], some []⟩, navProfiles := emptyP, rules := rulesThird,
    selectedCategories := ⟨false, false, false⟩, maxYearlyChange := 1 / 5,
    firstYearCap := 1 / 4, manualOverrides := fun _ => noOv }

/-- C6 witness input: all profiles present. -/
def c6wit : SolverInputE :=
  { availableCapital := 5000, startYear := 2026, horizon := none,
    planningHorizon := some 1, projectionHorizon := some 1,
    profiles := ⟨some [], some [], some []⟩, navProfiles := emptyP, rules := rulesThird,
    selectedCategories := ⟨false, true, false⟩, maxYearlyChange := 1 / 5,
    firstYearCap := 1 / 4, manualOverrides := fun _ => noOv }

/- ======================  general helper lemmas  ====================== -/

theorem sum_map_addF (f g : ℕ → ℚ) : ∀ (l : List ℕ),
    (l.map (addF f g)).sum = (l.map f).sum + (l.map g).sum := by
  intro l
  induction l with
  | nil => simp
  | cons b l2 ih => simp [addF, ih]; ring

theorem cumF_addF (f g : ℕ → ℚ) (t : ℕ) : cumF (addF f g) t = cumF f t + cumF g t :=
  sum_map_addF f g (List.range (t + 1))

theorem cumF_zero (t : ℕ) : cumF (fun _ => (0 : ℚ)) t = 0 := by simp [cumF]

theorem cumF_eq_zero_of (f : ℕ → ℚ) (t : ℕ) (hf : ∀ s, s ≤ t → f s = 0) :
    cumF f t = 0 := by
  refine List.sum_eq_zero ?_
  intro x hx
  obtain ⟨s, hs, rfl⟩ := List.mem_map.mp hx
  rw [List.mem_range] at hs
  exact hf s (by omega)

theorem cumF_smul (a : ℚ) (f : ℕ → ℚ) (t : ℕ) :
    cumF (fun s => a * f s) t = a * cumF f t := by
  unfold cumF
  induction List.range (t + 1) with
  | nil => simp
  | cons b l2 ih => simp [ih]; ring

theorem cumF_congr (f g : ℕ → ℚ) (t : ℕ) (hfg : ∀ s, s ≤ t → f s = g s) :
    cumF f t = cumF g t := by
  unfold cumF
  refine congrArg List.sum (List.map_congr_left ?_)
  intro s hs
  rw [List.mem_range] at hs
  exact hfg s (by omega)

theorem headD_mem_of_ne_nil {α : Type} (l : List α) (d : α) (h : l ≠ []) :
    l.headD d ∈ l := by
  cases l with
  | nil => exact absurd rfl h
  | cons x xs => exact List.mem_cons_self x xs

theorem foldl_invariant {α β : Type} (f : α → β → α) (P : α → Prop)
    (hf : ∀ s b, P s → P (f s b)) : ∀ (l : List β) (s : α), P s → P (l.foldl f s) := by
  intro l
  induction l with
  | nil => intro s hs; simpa using hs
  | cons b l2 ih =>
    intro s hs
    rw [List.foldl_cons]
    exact ih _ (hf s b hs)

/- ======================  claim C8  ====================== -/

/-- C8 (confirmed): calculateCommitmentProjection is a total (pure, never
failing) function of its inputs; for amount ≥ 0, startIndex in [0, horizon)
and horizon > 0, once the profile is exhausted before the horizon ends the
unfunded series is pinned at its last computed value
max(0, amount − cumulative called) for every remaining year, and an empty
profile yields all-zero cashflows with unfunded equal to amount from
startIndex onward. -/
theorem c8_projection_pinned (amount : ℚ) (profile : List ℚ) (s h : ℕ)
    (ham : 0 ≤ amount) (_hs : s < h) :
    (∀ t, s + profile.length ≤ t → t < h →
      (calculateCommitmentProjection amount profile s h).2 t =
        max 0 (amount - cumCalled amount profile profile.length)) ∧
    (profile = [] →
      (∀ t, (calculateCommitmentProjection amount profile s h).1 t = 0) ∧
      (∀ t, s ≤ t → t < h →
        (calculateCommitmentProjection amount profile s h).2 t = amount)) := by
  constructor
  · intro t h1 h2
    rw [calc_snd]
    unfold ufClosed
    rw [if_pos (by omega : s ≤ t ∧ t < h)]
    have : min (t - s + 1) profile.length = profile.length := by omega
    rw [this]
  · intro hp
    subst hp
    constructor
    · intro t
      rw [calc_fst]
      unfold cfClosed
      rw [if_neg (by simp)]
    · intro t h1 h2
      rw [calc_snd]
      unfold ufClosed
      rw [if_pos ⟨h1, h2⟩]
      simp [cumCalled, max_eq_right ham]

/-- C8 witness: amount 5, empty profile, startIndex 0, horizon 2: the unfunded
series is pinned at 5 and the cashflows vanish. -/
theorem c8_witness :
    (0 : ℚ) ≤ 5 ∧ (0 : ℕ) < 2 ∧
      (calculateCommitmentProjection 5 [] 0 2).2 1 = 5 ∧
      (calculateCommitmentProjection 5 [] 0 2).1 1 = 0 := by
  have h := c8_projection_pinned 5 [] 0 2 (by norm_num) (by norm_num)
  exact ⟨by norm_num, by norm_num, ((h.2 rfl).2 1 (by norm_num) (by norm_num)),
    (h.2 rfl).1 1⟩

/- ======================  claim C10  ====================== -/

/-- C10 (confirmed): for every call of calculateCommitmentProjection with
amount ≥ 0, the unfunded and cashflow series are 0 at every index before
startIndex, the unfunded series never exceeds amount, and it is non-increasing
from startIndex to the end of the horizon. -/
theorem c10_unfunded_invariants (amount : ℚ) (profile : List ℚ) (s h : ℕ)
    (ham : 0 ≤ amount) :
    (∀ t, t < s → (calculateCommitmentProjection amount profile s h).2 t = 0 ∧
      (calculateCommitmentProjection amount profile s h).1 t = 0) ∧
    (∀ t, (calculateCommitmentProjection amount profile s h).2 t ≤ amount) ∧
    (∀ t₁ t₂, s ≤ t₁ → t₁ ≤ t₂ → t₂ < h →
      (calculateCommitmentProjection amount profile s h).2 t₂ ≤
        (calculateCommitmentProjection amount profile s h).2 t₁) := by
  refine ⟨fun t ht => ⟨?_, ?_⟩, fun t => ?_, fun t1 t2 h1 h2 h3 => ?_⟩
  · rw [calc_snd]; exact ufClosed_eq_zero_of_lt _ _ _ _ _ ht
  · rw [calc_fst]; exact cfClosed_eq_zero_of_lt _ _ _ _ _ ht
  · rw [calc_snd]; exact ufClosed_le_amount _ _ _ _ _ ham
  · rw [calc_snd, calc_snd]; exact ufClosed_antitone _ _ _ _ _ _ h1 h2 h3

/-- C10 witness: amount 3, profile [-1], startIndex 1, horizon 3. -/
theorem c10_witness :
    (0 : ℚ) ≤ 3 ∧ (calculateCommitmentProjection 3 [-1] 1 3).2 0 = 0 ∧
      (calculateCommitmentProjection 3 [-1] 1 3).1 0 = 0 ∧
      (calculateCommitmentProjection 3 [-1] 1 3).2 2 ≤ 3 ∧
      (calculateCommitmentProjection 3 [-1] 1 3).2 2 ≤
        (calculateCommitmentProjection 3 [-1] 1 3).2 1 := by
  have h := c10_unfunded_invariants 3 [-1] 1 3 (by norm_num)
  exact ⟨by norm_num, (h.1 0 (by norm_num)).1, (h.1 0 (by norm_num)).2, h.2.1 2,
    h.2.2 1 2 (by norm_num) (by norm_num) (by norm_num)⟩

/- ======================  claim C9  ====================== -/

theorem enrich_mem (capital : ℚ) (P NP : CatP) (comms : List Commitment) :
    ∀ (rows : List ReportRow) (st : EnrichState) (fr : FullRow),
      fr ∈ (rows.foldl (enrichStep capital P NP comms) st).rows →
      fr ∈ st.rows ∨ ∃ st2 r, r ∈ rows ∧ fr = enrichedRowOf capital P NP comms st2 r := by
  intro rows
  induction rows with
  | nil =>
    intro st fr h
    exact Or.inl (by simpa using h)
  | cons r rows ih =>
    intro st fr h
    rw [List.foldl_cons] at h
    rcases ih _ fr h with h1 | ⟨st2, r2, hr2, he⟩
    · have h2 : fr ∈ st.rows ++ [enrichedRowOf capital P NP comms st r] := h1
      rcases List.mem_append.mp h2 with h3 | h4
      · exact Or.inl h3
      · exact Or.inr ⟨st, r, List.mem_cons_self r rows, List.mem_singleton.mp h4⟩
    · exact Or.inr ⟨st2, r2, List.mem_cons_of_mem r hr2, he⟩

theorem enrichedRowOf_fields (capital : ℚ) (P NP : CatP) (comms : List Commitment)
    (st : EnrichState) (r : ReportRow) :
    (enrichedRowOf capital P NP comms st r).endBalance = r.endBalance ∧
    (enrichedRowOf capital P NP comms st r).availableCash =
      capital - (enrichedRowOf capital P NP comms st r).cumulativeCommitments +
        (enrichedRowOf capital P NP comms st r).cumulativeDistributions ∧
    (enrichedRowOf capital P NP comms st r).totalValue =
      (enrichedRowOf capital P NP comms st r).availableCash +
        (enrichedRowOf capital P NP comms st r).cumulativeCommitments ∧
    (enrichedRowOf capital P NP comms st r).totalValue =
      capital + (enrichedRowOf capital P NP comms st r).cumulativeDistributions := by
  refine ⟨rfl, rfl, rfl, ?_⟩
  show (capital - (enrichCums P NP comms st r).1 + (enrichCums P NP comms st r).2.2) +
      (enrichCums P NP comms st r).1 =
    capital + (enrichCums P NP comms st r).2.2
  ring

/-- C9 (confirmed): in every report row of the returned plan, availableCash
equals availableCapital − cumulativeCommitments + cumulativeDistributions, and
totalValue equals availableCash + cumulativeCommitments — equivalently
availableCapital + cumulativeDistributions, not cash + NAV. -/
theorem c9_reporting_identities (inp : SolverInput) :
    ∀ r ∈ (solveCPT inp).annualReport,
      r.availableCash = inp.availableCapital - r.cumulativeCommitments +
        r.cumulativeDistributions ∧
      r.totalValue = r.availableCash + r.cumulativeCommitments ∧
      r.totalValue = inp.availableCapital + r.cumulativeDistributions := by
  intro r hr
  have hrep : (solveCPT inp).annualReport =
      ((chosen inp).1.annualReport.foldl
        (enrichStep inp.availableCapital inp.profiles inp.navProfiles
          (chosen inp).1.commitments) ⟨0, 0, 0, 0, []⟩).rows := rfl
  rw [hrep] at hr
  rcases enrich_mem _ _ _ _ _ _ _ hr with h1 | ⟨st2, r2, _, he⟩
  · simp at h1
  · subst he
    obtain ⟨_, h2, h3, h4⟩ := enrichedRowOf_fields inp.availableCapital inp.profiles
      inp.navProfiles (chosen inp).1.commitments st2 r2
    exact ⟨h2, h3, h4⟩

/-- C9 witness: the first report row of a concrete solve satisfies the
reporting identities. -/
theorem c9_witness :
    ((solveCPT c9wit).annualReport.headD defFullRow).availableCash =
      c9wit.availableCapital -
        ((solveCPT c9wit).annualReport.headD defFullRow).cumulativeCommitments +
        ((solveCPT c9wit).annualReport.headD defFullRow).cumulativeDistributions ∧
    ((solveCPT c9wit).annualReport.headD defFullRow).totalValue =
      c9wit.availableCapital +
        ((solveCPT c9wit).annualReport.headD defFullRow).cumulativeDistributions := by
  have hne : (solveCPT c9wit).annualReport ≠ [] :=
    List.ne_nil_of_length_pos (of_decide_eq_true (by with_unfolding_all rfl))
  have h := c9_reporting_identities c9wit ((solveCPT c9wit).annualReport.headD defFullRow)
    (headD_mem_of_ne_nil _ _ hne)
  exact ⟨h.1, h.2.2⟩

/- ======================  claim C3  ====================== -/

/-- C3 (confirmed): the relaxed re-solve is consulted only when the smoothed
end-of-planning balance exceeds 10% of availableCapital and the smoothed total
committed is below 80% of availableCapital; the relaxed result is adopted
(relaxedConstraint = true) precisely when additionally its total commitment
exceeds the smoothed total by more than 20%; in every other case the smoothed
result is returned unchanged with relaxedConstraint = false. -/
theorem c3_relaxation_gate (inp : SolverInput) :
    ((solveCPT inp).metrics.relaxedConstraint = true ↔
      retryTriggered inp ∧ adoptRelaxed inp) ∧
    ((solveCPT inp).metrics.relaxedConstraint = false →
      (solveCPT inp).commitments = (smoothedResult inp).commitments ∧
      (solveCPT inp).metrics.totalCommitted = totalOf (smoothedResult inp)) ∧
    (retryTriggered inp → adoptRelaxed inp →
      (solveCPT inp).commitments = (relaxedResult inp).commitments ∧
      (solveCPT inp).metrics.totalCommitted = totalOf (relaxedResult inp)) := by
  have hrel : (solveCPT inp).metrics.relaxedConstraint = (chosen inp).2 := rfl
  have hcom : (solveCPT inp).commitments = (chosen inp).1.commitments := rfl
  have htot : (solveCPT inp).metrics.totalCommitted = totalOf (chosen inp).1 := rfl
  by_cases ht : retryTriggered inp
  · by_cases ha : adoptRelaxed inp
    · have hch : chosen inp = (relaxedResult inp, true) := by
        unfold chosen
        rw [if_pos ht, if_pos ha]
      refine ⟨?_, ?_, ?_⟩
      · rw [hrel, hch]
        simp [ht, ha]
      · intro hf
        rw [hrel, hch] at hf
        simp at hf
      · intro _ _
        exact ⟨by rw [hcom, hch], by rw [htot, hch]⟩
    · have hch : chosen inp = (smoothedResult inp, false) := by
        unfold chosen
        rw [if_pos ht, if_neg ha]
      refine ⟨?_, ?_, ?_⟩
      · rw [hrel, hch]
        simp [ha]
      · intro _
        exact ⟨by rw [hcom, hch], by rw [htot, hch]⟩
      · intro _ ha2
        exact absurd ha2 ha
  · have hch : chosen inp = (smoothedResult inp, false) := by
      unfold chosen
      rw [if_neg ht]
    refine ⟨?_, ?_, ?_⟩
    · rw [hrel, hch]
      simp [ht]
    · intro _
      exact ⟨by rw [hcom, hch], by rw [htot, hch]⟩
    · intro ht2 _
      exact absurd ht2 ht

/-- C3 witness: a concrete input where the retry triggers but the relaxed run
does not beat the smoothed total by 20%, so the smoothed result is kept. -/
theorem c3_witness :
    (solveCPT c3wit).commitments = (smoothedResult c3wit).commitments ∧
      (solveCPT c3wit).metrics.totalCommitted = totalOf (smoothedResult c3wit) :=
  (c3_relaxation_gate c3wit).2.1 (of_decide_eq_true (by with_unfolding_all rfl))

/- ======================  claim C2  ====================== -/

/-- C2 (code bug): with all three categories deselected the claim expects every
commitment amount to be 0 and totalCommitted = 0; the code instead finds every
candidate vacuously feasible (zero breakdown produces no cashflows) and
commits the search cap: at the failing input the single commitment amount and
totalCommitted are 19,999,000 with an all-zero breakdown, while portfolioMOIC
is indeed 0.  Evaluation of the code at the failing input. -/
theorem c2_all_deselected_bug :
    (solveCPT c2bug).commitments.map (fun c => c.amount) = [19999000] ∧
    (solveCPT c2bug).metrics.totalCommitted = 19999000 ∧
    (solveCPT c2bug).commitments.map (fun c => c.breakdown) = [⟨0, 0, 0⟩] ∧
    (solveCPT c2bug).metrics.portfolioMOIC = 0 :=
  ⟨by with_unfolding_all rfl, by with_unfolding_all rfl, by with_unfolding_all rfl,
    by with_unfolding_all rfl⟩

/- ======================  claim C4  ====================== -/

theorem jsOr_pos (a : Option ℕ) (b : ℕ) (hb : 0 < b) : 0 < jsOr a b := by
  unfold jsOr
  rcases a with _ | n
  · exact hb
  · dsimp only
    split_ifs with h
    · exact hb
    · omega

theorem pHorizonOf_pos (inp : SolverInput) : 0 < pHorizonOf inp :=
  jsOr_pos _ _ (jsOr_pos _ _ (by omega))

theorem yearStep_commitments (inp : SolverInput) (sm : Bool) (h : ℕ) (st : LoopState)
    (y : ℕ) :
    (yearStep inp sm h st y).commitments =
      st.commitments ++ [yearCommitment inp sm h st y] := rfl

theorem foldl_yearStep_commitments (inp : SolverInput) (sm : Bool) (h : ℕ) :
    ∀ (l : List ℕ) (st : LoopState),
      ∃ tail, (l.foldl (yearStep inp sm h) st).commitments = st.commitments ++ tail := by
  intro l
  induction l with
  | nil => intro st; exact ⟨[], by simp⟩
  | cons y l2 ih =>
    intro st
    rw [List.foldl_cons]
    obtain ⟨tail, htail⟩ := ih (yearStep inp sm h st y)
    refine ⟨[yearCommitment inp sm h st y] ++ tail, ?_⟩
    rw [htail, yearStep_commitments]
    simp

theorem planLoop_first_commitment (inp : SolverInput) (sm : Bool) :
    (planLoop inp sm).commitments.get? 0 =
      some (yearCommitment inp sm (totalHorizonOf inp) initState 0) := by
  unfold planLoop
  obtain ⟨m, hm⟩ : ∃ m, pHorizonOf inp = m + 1 :=
    ⟨pHorizonOf inp - 1, by have := pHorizonOf_pos inp; omega⟩
  rw [hm, List.range_succ_eq_map, List.foldl_cons]
  obtain ⟨tail, htail⟩ :=
    foldl_yearStep_commitments inp sm (totalHorizonOf inp) ((List.range m).map Nat.succ)
      (yearStep inp sm (totalHorizonOf inp) initState 0)
  rw [htail, yearStep_commitments]
  rfl

theorem normalizeActive_pe_zero (pre : CatQ) (hpe : pre.pe = 0) :
    (normalizeActive pre).pe = 0 := by
  unfold normalizeActive
  dsimp only
  split_ifs with h
  · dsimp only
    rw [hpe, zero_div]
  · exact hpe

theorem yearDecision_pe_override (inp : SolverInput) (sm : Bool) (h : ℕ)
    (st : LoopState) (y : ℕ) (v : ℚ) (hov : (inp.manualOverrides y).pe = some v) :
    (yearDecision inp sm h st y).2.1.pe = v := by
  unfold yearDecision
  dsimp only
  split_ifs with hcond
  · show (forcedOf (inp.manualOverrides y)).pe = v
    unfold forcedOf
    rw [hov]
    rfl
  · show (addBd (forcedOf (inp.manualOverrides y)) _
      (normalizeActive (activePre (inp.manualOverrides y) _))).pe = v
    have hpre : (activePre (inp.manualOverrides y)
        (ratiosFor inp.selectedCategories (phaseRatios inp.rules (phaseOf y)))).pe = 0 := by
      unfold activePre
      dsimp only
      rw [hov]
      rfl
    unfold addBd
    dsimp only
    rw [normalizeActive_pe_zero _ hpre, mul_zero, add_zero]
    unfold forcedOf
    rw [hov]
    rfl

/-- C4 (confirmed): for every input whose manual overrides pin pe in planning
year 0 to 500,000, the commitment returned for year 0 has breakdown.pe exactly
500,000, on both the smoothed and the relaxed path, regardless of the
feasibility bounds (the optimizer only searches the additional amount for the
non-overridden categories). -/
theorem c4_override_pin (inp : SolverInput)
    (hov : (inp.manualOverrides 0).pe = some 500000) :
    ((solveCPT inp).commitments.get? 0).map (fun c => c.breakdown.pe) = some 500000 := by
  have hcom : (solveCPT inp).commitments = (chosen inp).1.commitments := rfl
  have hboth : ∀ sm : Bool,
      (((runSolver inp sm).commitments.get? 0).map (fun c => c.breakdown.pe)) =
        some 500000 := by
    intro sm
    have hrs : (runSolver inp sm).commitments = (planLoop inp sm).commitments := rfl
    rw [hrs, planLoop_first_commitment]
    have hpe : (yearCommitment inp sm (totalHorizonOf inp) initState 0).breakdown.pe =
        500000 := yearDecision_pe_override inp sm (totalHorizonOf inp) initState 0 _ hov
    simp [hpe]
  rw [hcom]
  unfold chosen
  split_ifs
  · exact hboth false
  · exact hboth true
  · exact hboth true

/-- C4 witness: a concrete input with capital 1,000 and the year-0 override
pe = 500,000 yields breakdown.pe = 500,000. -/
theorem c4_witness :
    ((solveCPT c4wit).commitments.get? 0).map (fun c => c.breakdown.pe) = some 500000 :=
  c4_override_pin c4wit rfl

/- ======================  claim C5  ====================== -/

theorem floor1000_nonneg (x : ℚ) (hx : 0 ≤ x) : 0 ≤ floor1000 x := by
  unfold floor1000
  have h1 : (0 : ℤ) ≤ ⌊x / 1000⌋ := Int.floor_nonneg.mpr (by positivity)
  have h2 : (0 : ℚ) ≤ (⌊x / 1000⌋ : ℤ) := by exact_mod_cast h1
  positivity

theorem floor1000_le (x : ℚ) : floor1000 x ≤ x := by
  unfold floor1000
  have h1 : ((⌊x / 1000⌋ : ℤ) : ℚ) ≤ x / 1000 := Int.floor_le (x / 1000)
  have h2 : ((⌊x / 1000⌋ : ℤ) : ℚ) * 1000 ≤ (x / 1000) * 1000 := by
    exact mul_le_mul_of_nonneg_right h1 (by norm_num)
  calc ((⌊x / 1000⌋ : ℤ) : ℚ) * 1000 ≤ (x / 1000) * 1000 := h2
    _ = x := by field_simp

theorem floor1000_idem (x : ℚ) : floor1000 (floor1000 x) = floor1000 x := by
  unfold floor1000
  have h1 : ((⌊x / 1000⌋ : ℤ) : ℚ) * 1000 / 1000 = ((⌊x / 1000⌋ : ℤ) : ℚ) := by
    field_simp
  rw [h1, Int.floor_intCast]

theorem floor1000_int (x : ℚ) : ∃ k : ℤ, floor1000 x = 1000 * k :=
  ⟨⌊x / 1000⌋, by unfold floor1000; ring⟩

theorem floor1000_zero : floor1000 0 = 0 := by
  unfold floor1000
  rw [zero_div, Int.floor_zero]
  norm_num

theorem binarySearchBest_spec (feasible : ℚ → Bool) (hi : ℚ) (h0 : 0 ≤ hi) :
    0 ≤ binarySearchBest feasible hi ∧
      (binarySearchBest feasible hi = 0 ∨
        feasible (binarySearchBest feasible hi) = true) := by
  have key := foldl_invariant
    (fun (st : ℚ × ℚ × ℚ) (_ : ℕ) =>
      let mid := (st.1 + st.2.1) / 2
      if feasible mid then (mid, st.2.1, mid) else (st.1, mid, st.2.2))
    (fun st => 0 ≤ st.1 ∧ 0 ≤ st.2.1 ∧
      (0 ≤ st.2.2 ∧ (st.2.2 = 0 ∨ feasible st.2.2 = true)))
    (by
      intro st b hst
      obtain ⟨h1, h2, h3, h4⟩ := hst
      dsimp only
      split_ifs with hf
      · exact ⟨by positivity, h2, by positivity, Or.inr hf⟩
      · exact ⟨h1, by positivity, h3, h4⟩)
    (List.range 20) ((0 : ℚ), hi, (0 : ℚ)) ⟨le_refl 0, h0, le_refl 0, Or.inl rfl⟩
  exact ⟨key.2.2.1, key.2.2.2⟩

theorem maxAdditionalOf_nonneg (capital fyc myc : ℚ) (sm : Bool) (y : ℕ) (last ft : ℚ)
    (hcap : 0 ≤ capital) :
    0 ≤ maxAdditionalOf capital fyc myc sm y last ft := by
  unfold maxAdditionalOf
  dsimp only
  have h5 : (0 : ℚ) ≤ capital * 5 := by positivity
  split_ifs with h1 h2
  · exact le_min (le_max_left 0 _) h5
  · exact le_min (le_max_left 0 _) h5
  · exact le_min (by positivity) h5

theorem yearDecision_no_override (inp : SolverInput) (sm : Bool) (h : ℕ)
    (st : LoopState) (y : ℕ) (hcap : 0 ≤ inp.availableCapital)
    (hov : inp.manualOverrides y = noOv) :
    0 ≤ (yearDecision inp sm h st y).1 ∧
      floor1000 (yearDecision inp sm h st y).1 = (yearDecision inp sm h st y).1 ∧
      (∃ k : ℤ, (yearDecision inp sm h st y).1 = 1000 * k) ∧
      (yearDecision inp sm h st y).2.1 =
        addBd (forcedOf noOv) (yearDecision inp sm h st y).1
          (normalizeActive (activePre noOv
            (ratiosFor inp.selectedCategories (phaseRatios inp.rules (phaseOf y))))) := by
  unfold yearDecision
  rw [hov]
  have hno : ¬(catQsum (activePre noOv
      (ratiosFor inp.selectedCategories (phaseRatios inp.rules (phaseOf y)))) = 0 ∧
      hasOv noOv = true) := by
    intro hc
    exact absurd hc.2 (by rw [show hasOv noOv = false from rfl]; simp)
  dsimp only
  rw [if_neg hno]
  have hfz : catQsum (forcedOf noOv) = 0 := by with_unfolding_all rfl
  dsimp only
  rw [hfz, zero_add]
  have hhi : 0 ≤ maxAdditionalOf inp.availableCapital inp.firstYearCap inp.maxYearlyChange
      sm y st.lastYearCommitment 0 :=
    maxAdditionalOf_nonneg _ _ _ _ _ _ _ hcap
  obtain ⟨hb0, _⟩ := binarySearchBest_spec
    (isFeasibleB inp.availableCapital inp.profiles st.flows st.unf y h (forcedOf noOv)
      (normalizeActive (activePre noOv
        (ratiosFor inp.selectedCategories (phaseRatios inp.rules (phaseOf y))))))
    _ hhi
  exact ⟨floor1000_nonneg _ hb0, floor1000_idem _, floor1000_int _, rfl⟩

theorem planLoop_commitments_all (inp : SolverInput) (sm : Bool)
    (P : Commitment → Prop)
    (hstep : ∀ st y, P (yearCommitment inp sm (totalHorizonOf inp) st y)) :
    ∀ c ∈ (planLoop inp sm).commitments, P c := by
  unfold planLoop
  have key := foldl_invariant (yearStep inp sm (totalHorizonOf inp))
    (fun st => ∀ c ∈ st.commitments, P c)
    (by
      intro st y hst c hc
      rw [yearStep_commitments] at hc
      rcases List.mem_append.mp hc with h1 | h2
      · exact hst c h1
      · rw [List.mem_singleton.mp h2]
        exact hstep st y)
    (List.range (pHorizonOf inp)) initState (by intro c hc; simp [initState] at hc)
  exact key

/-- C5 (corrected): for every input with nonnegative availableCapital and no
manual overrides, every commitment amount in the returned plan is nonnegative
and a multiple of 1,000 (flooring to 1,000 is idempotent on it).  The original
claim also covered inputs with manual overrides, which is refuted by
c5_counterexample. -/
theorem c5_amounts_rounded (inp : SolverInput) (hcap : 0 ≤ inp.availableCapital)
    (hov : ∀ y, inp.manualOverrides y = noOv) :
    ∀ c ∈ (solveCPT inp).commitments,
      0 ≤ c.amount ∧ floor1000 c.amount = c.amount ∧ ∃ k : ℤ, c.amount = 1000 * k := by
  have hcom : (solveCPT inp).commitments = (chosen inp).1.commitments := rfl
  have hboth : ∀ sm : Bool, ∀ c ∈ (runSolver inp sm).commitments,
      0 ≤ c.amount ∧ floor1000 c.amount = c.amount ∧ ∃ k : ℤ, c.amount = 1000 * k := by
    intro sm
    have hrs : (runSolver inp sm).commitments = (planLoop inp sm).commitments := rfl
    rw [hrs]
    refine planLoop_commitments_all inp sm _ ?_
    intro st y
    obtain ⟨h1, h2, h3, _⟩ :=
      yearDecision_no_override inp sm (totalHorizonOf inp) st y hcap (hov y)
    exact ⟨h1, h2, h3⟩
  rw [hcom]
  unfold chosen
  split_ifs
  · exact hboth false
  · exact hboth true
  · exact hboth true

/-- C5 counterexample: with the year-0 manual override pe = 500 the returned
commitment amount is 500, which is not a multiple of 1,000 (flooring to 1,000
is not idempotent on it), refuting the claim for inputs with manual
overrides. -/
theorem c5_counterexample :
    (solveCPT c5cex).commitments.map (fun c => c.amount) = [500] ∧
      floor1000 500 = 0 ∧ (0 : ℚ) ≠ 500 := by
  refine ⟨by with_unfolding_all rfl, by with_unfolding_all rfl, by norm_num⟩

/-- C5 witness: a concrete no-override input with capital 2,000 whose single
commitment amount (2,000) is a nonnegative multiple of 1,000. -/
theorem c5_witness :
    0 ≤ ((solveCPT c5wit).commitments.headD defCommitment).amount ∧
      floor1000 ((solveCPT c5wit).commitments.headD defCommitment).amount =
        ((solveCPT c5wit).commitments.headD defCommitment).amount := by
  have hne : (solveCPT c5wit).commitments ≠ [] :=
    List.ne_nil_of_length_pos (of_decide_eq_true (by with_unfolding_all rfl))
  have h := c5_amounts_rounded c5wit (by with_unfolding_all rfl) (fun y => rfl)
    ((solveCPT c5wit).commitments.headD defCommitment) (headD_mem_of_ne_nil _ _ hne)
  exact ⟨h.1, h.2.1⟩

/- ======================  claim C7  ====================== -/

theorem ratiosFor_spec (sel : CatB) (raw : CatQ)
    (hpos : 0 < selRatioSum sel raw) :
    catQsum (ratiosFor sel raw) = 1 ∧
    (sel.secondaries = false → (ratiosFor sel raw).secondaries = 0) ∧
    (sel.pe = false → (ratiosFor sel raw).pe = 0) ∧
    (sel.vc = false → (ratiosFor sel raw).vc = 0) := by
  have hne : selRatioSum sel raw ≠ 0 := ne_of_gt hpos
  unfold ratiosFor
  rw [if_pos hpos]
  refine ⟨?_, fun hs => by simp [hs], fun hs => by simp [hs], fun hs => by simp [hs]⟩
  unfold catQsum
  dsimp only
  unfold selRatioSum at hne ⊢
  rcases sel with ⟨s1, s2, s3⟩
  cases s1 <;> cases s2 <;> cases s3 <;> simp at hne ⊢ <;> field_simp

theorem activePre_noOv (r : CatQ) : activePre noOv r = r := by
  cases r
  rfl

theorem normalizeActive_of_sum_one (pre : CatQ) (hsum : catQsum pre = 1) :
    normalizeActive pre = pre := by
  unfold normalizeActive
  rw [hsum, if_pos (by norm_num : (0 : ℚ) < 1)]
  cases pre
  simp

theorem catQsum_addBd (f : CatQ) (a : ℚ) (r : CatQ) :
    catQsum (addBd f a r) = catQsum f + a * catQsum r := by
  unfold catQsum addBd
  dsimp only
  ring

theorem yearDecision_breakdown_no_override (inp : SolverInput) (sm : Bool) (h : ℕ)
    (st : LoopState) (y : ℕ) (hov : inp.manualOverrides y = noOv) :
    (yearDecision inp sm h st y).2.1 =
      addBd (forcedOf noOv) (yearDecision inp sm h st y).1
        (normalizeActive (activePre noOv
          (ratiosFor inp.selectedCategories (phaseRatios inp.rules (phaseOf y))))) := by
  unfold yearDecision
  rw [hov]
  have hno : ¬(catQsum (activePre noOv
      (ratiosFor inp.selectedCategories (phaseRatios inp.rules (phaseOf y)))) = 0 ∧
      hasOv noOv = true) := by
    intro hc
    exact absurd hc.2 (by rw [show hasOv noOv = false from rfl]; simp)
  dsimp only
  rw [if_neg hno]
  have hfz : catQsum (forcedOf noOv) = 0 := by with_unfolding_all rfl
  dsimp only
  rw [hfz, zero_add]

theorem yearCommitment_conservation (inp : SolverInput) (sm : Bool) (st : LoopState)
    (y : ℕ) (hov : inp.manualOverrides y = noOv)
    (hsum : ∀ ph, 0 < selRatioSum inp.selectedCategories (phaseRatios inp.rules ph)) :
    catQsum (yearCommitment inp sm (totalHorizonOf inp) st y).breakdown =
      (yearCommitment inp sm (totalHorizonOf inp) st y).amount ∧
    (inp.selectedCategories.secondaries = false →
      (yearCommitment inp sm (totalHorizonOf inp) st y).breakdown.secondaries = 0) ∧
    (inp.selectedCategories.pe = false →
      (yearCommitment inp sm (totalHorizonOf inp) st y).breakdown.pe = 0) ∧
    (inp.selectedCategories.vc = false →
      (yearCommitment inp sm (totalHorizonOf inp) st y).breakdown.vc = 0) := by
  obtain ⟨h1, h2, h3, h4⟩ :=
    ratiosFor_spec inp.selectedCategories (phaseRatios inp.rules (phaseOf y))
      (hsum (phaseOf y))
  have hbd : (yearCommitment inp sm (totalHorizonOf inp) st y).breakdown =
      addBd (forcedOf noOv) (yearCommitment inp sm (totalHorizonOf inp) st y).amount
        (ratiosFor inp.selectedCategories (phaseRatios inp.rules (phaseOf y))) := by
    have := yearDecision_breakdown_no_override inp sm (totalHorizonOf inp) st y hov
    rw [activePre_noOv, normalizeActive_of_sum_one _ h1] at this
    exact this
  have hfz : catQsum (forcedOf noOv) = 0 := by with_unfolding_all rfl
  have hfs : (forcedOf noOv).secondaries = 0 := by with_unfolding_all rfl
  have hfp : (forcedOf noOv).pe = 0 := by with_unfolding_all rfl
  have hfv : (forcedOf noOv).vc = 0 := by with_unfolding_all rfl
  refine ⟨?_, fun hs => ?_, fun hs => ?_, fun hs => ?_⟩
  · rw [hbd, catQsum_addBd, hfz, h1]
    ring
  · rw [hbd]
    show (forcedOf noOv).secondaries + _ * _ = 0
    rw [hfs, h2 hs, mul_zero, add_zero]
  · rw [hbd]
    show (forcedOf noOv).pe + _ * _ = 0
    rw [hfp, h3 hs, mul_zero, add_zero]
  · rw [hbd]
    show (forcedOf noOv).vc + _ * _ = 0
    rw [hfv, h4 hs, mul_zero, add_zero]

/-- C7 (corrected): for every input with no manual overrides whose selected
categories have a positive raw ratio sum in every phase, every commitment
splits its amount exactly over the selected categories: the breakdown sums to
the amount, unselected categories get 0, and when amount is nonzero the sum of
breakdown[cat]/amount over the selected (active) categories is exactly 1.  The
original claim also covered commitments alongside manual overrides, refuted by
c7_counterexample. -/
theorem c7_ratio_conservation (inp : SolverInput)
    (hov : ∀ y, inp.manualOverrides y = noOv)
    (hsum : ∀ ph, 0 < selRatioSum inp.selectedCategories (phaseRatios inp.rules ph)) :
    ∀ c ∈ (solveCPT inp).commitments,
      catQsum c.breakdown = c.amount ∧
      (c.amount ≠ 0 →
        (if inp.selectedCategories.secondaries = true
          then c.breakdown.secondaries / c.amount else 0) +
        (if inp.selectedCategories.pe = true then c.breakdown.pe / c.amount else 0) +
        (if inp.selectedCategories.vc = true then c.breakdown.vc / c.amount else 0) = 1) := by
  have hcom : (solveCPT inp).commitments = (chosen inp).1.commitments := rfl
  have hboth : ∀ sm : Bool, ∀ c ∈ (runSolver inp sm).commitments,
      catQsum c.breakdown = c.amount ∧
      (inp.selectedCategories.secondaries = false → c.breakdown.secondaries = 0) ∧
      (inp.selectedCategories.pe = false → c.breakdown.pe = 0) ∧
      (inp.selectedCategories.vc = false → c.breakdown.vc = 0) := by
    intro sm
    have hrs : (runSolver inp sm).commitments = (planLoop inp sm).commitments := rfl
    rw [hrs]
    refine planLoop_commitments_all inp sm _ ?_
    intro st y
    exact yearCommitment_conservation inp sm st y (hov y) hsum
  have main : ∀ c : Commitment, (catQsum c.breakdown = c.amount ∧
      (inp.selectedCategories.secondaries = false → c.breakdown.secondaries = 0) ∧
      (inp.selectedCategories.pe = false → c.breakdown.pe = 0) ∧
      (inp.selectedCategories.vc = false → c.breakdown.vc = 0)) →
      catQsum c.breakdown = c.amount ∧
      (c.amount ≠ 0 →
        (if inp.selectedCategories.secondaries = true
          then c.breakdown.secondaries / c.amount else 0) +
        (if inp.selectedCategories.pe = true then c.breakdown.pe / c.amount else 0) +
        (if inp.selectedCategories.vc = true then c.breakdown.vc / c.amount else 0) = 1) := by
    intro c ⟨hq, hzs, hzp, hzv⟩
    refine ⟨hq, fun hne => ?_⟩
    have e1 : (if inp.selectedCategories.secondaries = true
        then c.breakdown.secondaries / c.amount else 0) =
        c.breakdown.secondaries / c.amount := by
      cases hsel : inp.selectedCategories.secondaries
      · simp [hzs hsel]
      · simp
    have e2 : (if inp.selectedCategories.pe = true then c.breakdown.pe / c.amount else 0) =
        c.breakdown.pe / c.amount := by
      cases hsel : inp.selectedCategories.pe
      · simp [hzp hsel]
      · simp
    have e3 : (if inp.selectedCategories.vc = true then c.breakdown.vc / c.amount else 0) =
        c.breakdown.vc / c.amount := by
      cases hsel : inp.selectedCategories.vc
      · simp [hzv hsel]
      · simp
    rw [e1, e2, e3, div_add_div_same, div_add_div_same]
    have : c.breakdown.secondaries + c.breakdown.pe + c.breakdown.vc = c.amount := hq
    rw [this, div_self hne]
  intro c hc
  rw [hcom] at hc
  have hcases : (chosen inp).1 = smoothedResult inp ∨ (chosen inp).1 = relaxedResult inp := by
    unfold chosen
    split_ifs <;> simp
  rcases hcases with h | h <;> rw [h] at hc
  · exact main c (hboth true c hc)
  · exact main c (hboth false c hc)

/-- C7 counterexample: with secondaries and pe selected, pe overridden to
500,000 and zero capital, the single commitment has amount 500,000 while the
selected non-overridden category (secondaries) has breakdown 0, so the sum of
breakdown[cat]/amount over active categories is 0, not 1. -/
theorem c7_counterexample :
    (solveCPT c7cex).commitments.map
      (fun c => (c.amount, c.breakdown.secondaries)) = [(500000, 0)] ∧
    c7cex.selectedCategories.secondaries = true ∧
    (c7cex.manualOverrides 0).secondaries = none ∧
    (0 : ℚ) / 500000 ≠ 1 := by
  refine ⟨by with_unfolding_all rfl, rfl, rfl, by norm_num⟩

/-- C7 witness: pe selected alone with no overrides; the single commitment of
1,000,000 satisfies the exact ratio conservation. -/
theorem c7_witness :
    catQsum ((solveCPT c7wit).commitments.headD defCommitment).breakdown =
      ((solveCPT c7wit).commitments.headD defCommitment).amount := by
  have hne : (solveCPT c7wit).commitments ≠ [] :=
    List.ne_nil_of_length_pos (of_decide_eq_true (by with_unfolding_all rfl))
  have hsum : ∀ ph, 0 < selRatioSum c7wit.selectedCategories
      (phaseRatios c7wit.rules ph) := by
    intro ph
    unfold phaseRatios
    split_ifs <;> with_unfolding_all rfl
  exact (c7_ratio_conservation c7wit (fun y => rfl) hsum
    ((solveCPT c7wit).commitments.headD defCommitment)
    (headD_mem_of_ne_nil _ _ hne)).1

/- ======================  claim C1  ====================== -/

theorem integrity_fold (capital : ℚ) (lf lu nf nu : ℕ → ℚ) (y : ℕ) : ∀ n : ℕ,
    ((List.range n).foldl (integrityStep lf lu nf nu y) (capital, true)).1 =
      capital + ((List.range n).map (addF lf nf)).sum ∧
    (((List.range n).foldl (integrityStep lf lu nf nu y) (capital, true)).2 = true ↔
      ∀ t, t < n → y ≤ t →
        lu t + nu t ≤ capital + cumF (addF lf nf) t ∧
        0 ≤ capital + cumF (addF lf nf) t) := by
  intro n
  induction n with
  | zero => exact ⟨by simp, by simp⟩
  | succ n ih =>
    obtain ⟨ih1, ih2⟩ := ih
    have hstep : (List.range (n + 1)).foldl (integrityStep lf lu nf nu y) (capital, true) =
        integrityStep lf lu nf nu y
          ((List.range n).foldl (integrityStep lf lu nf nu y) (capital, true)) n := by
      rw [List.range_succ, List.foldl_append, List.foldl_cons, List.foldl_nil]
    set S := (List.range n).foldl (integrityStep lf lu nf nu y) (capital, true) with hS
    have hbal : S.1 + lf n + nf n = capital + cumF (addF lf nf) n := by
      rw [ih1]
      show capital + ((List.range n).map (addF lf nf)).sum + lf n + nf n =
        capital + ((List.range (n + 1)).map (addF lf nf)).sum
      rw [List.range_succ, List.map_append, List.sum_append]
      simp only [List.map_cons, List.map_nil, List.sum_cons, List.sum_nil, addF]
      ring
    constructor
    · rw [hstep]
      show S.1 + lf n + nf n = capital + ((List.range (n + 1)).map (addF lf nf)).sum
      exact hbal
    · rw [hstep]
      rw [show (integrityStep lf lu nf nu y S n).2 =
        (S.2 && (decide (n < y) || (decide (lu n + nu n ≤ S.1 + lf n + nf n) &&
          decide (0 ≤ S.1 + lf n + nf n)))) from rfl]
      simp only [Bool.and_eq_true, Bool.or_eq_true, decide_eq_true_eq]
      rw [ih2, hbal]
      constructor
      · rintro ⟨h1, h2⟩ t ht hyt
        rcases Nat.lt_succ_iff_lt_or_eq.mp ht with hlt | heq
        · exact h1 t hlt hyt
        · subst heq
          rcases h2 with h2 | h2
          · exact absurd hyt (by omega)
          · exact h2
      · intro hAll
        refine ⟨fun t hlt hyt => hAll t (Nat.lt_succ_of_lt hlt) hyt, ?_⟩
        by_cases hny : n < y
        · exact Or.inl hny
        · exact Or.inr (hAll n (Nat.lt_succ_self n) (by omega))

theorem checkIntegrity_iff (capital : ℚ) (lf lu nf nu : ℕ → ℚ) (y h : ℕ) :
    checkIntegrity capital lf lu nf nu y h = true ↔
      ∀ t, t < h → y ≤ t →
        lu t + nu t ≤ capital + cumF (addF lf nf) t ∧
        0 ≤ capital + cumF (addF lf nf) t :=
  (integrity_fold capital lf lu nf nu y h).2

theorem catContrib_fst (b : ℚ) (p : List ℚ) (s h t : ℕ) :
    (catContrib b p s h).1 t = if 0 < b then cfClosed b p s h t else 0 := by
  unfold catContrib
  split_ifs with hb
  · exact calc_fst b p s h t
  · rfl

theorem catContrib_snd (b : ℚ) (p : List ℚ) (s h t : ℕ) :
    (catContrib b p s h).2 t = if 0 < b then ufClosed b p s h t else 0 := by
  unfold catContrib
  split_ifs with hb
  · exact calc_snd b p s h t
  · rfl

theorem sumProjections_fst_eq (P : CatP) (bd : CatQ) (s h t : ℕ) :
    (sumProjections P bd s h).1 t =
      (catContrib bd.secondaries P.secondaries s h).1 t +
      ((catContrib bd.pe P.pe s h).1 t + (catContrib bd.vc P.vc s h).1 t) := rfl

theorem sumProjections_snd_eq (P : CatP) (bd : CatQ) (s h t : ℕ) :
    (sumProjections P bd s h).2 t =
      (catContrib bd.secondaries P.secondaries s h).2 t +
      ((catContrib bd.pe P.pe s h).2 t + (catContrib bd.vc P.vc s h).2 t) := rfl

theorem catContrib_snd_nonneg (b : ℚ) (p : List ℚ) (s h t : ℕ) :
    0 ≤ (catContrib b p s h).2 t := by
  rw [catContrib_snd]
  split_ifs
  · exact ufClosed_nonneg _ _ _ _ _
  · exact le_refl 0

theorem sumProjections_unf_nonneg (P : CatP) (bd : CatQ) (s h t : ℕ) :
    0 ≤ (sumProjections P bd s h).2 t := by
  rw [sumProjections_snd_eq]
  have h1 := catContrib_snd_nonneg bd.secondaries P.secondaries s h t
  have h2 := catContrib_snd_nonneg bd.pe P.pe s h t
  have h3 := catContrib_snd_nonneg bd.vc P.vc s h t
  linarith

theorem catContrib_before (b : ℚ) (p : List ℚ) (s h t : ℕ) (ht : t < s) :
    (catContrib b p s h).1 t = 0 ∧ (catContrib b p s h).2 t = 0 := by
  rw [catContrib_fst, catContrib_snd]
  constructor <;> split_ifs
  · exact cfClosed_eq_zero_of_lt _ _ _ _ _ ht
  · rfl
  · exact ufClosed_eq_zero_of_lt _ _ _ _ _ ht
  · rfl

theorem sumProjections_before (P : CatP) (bd : CatQ) (s h t : ℕ) (ht : t < s) :
    (sumProjections P bd s h).1 t = 0 ∧ (sumProjections P bd s h).2 t = 0 := by
  rw [sumProjections_fst_eq, sumProjections_snd_eq]
  obtain ⟨a1, a2⟩ := catContrib_before bd.secondaries P.secondaries s h t ht
  obtain ⟨b1, b2⟩ := catContrib_before bd.pe P.pe s h t ht
  obtain ⟨c1, c2⟩ := catContrib_before bd.vc P.vc s h t ht
  rw [a1, a2, b1, b2, c1, c2]
  norm_num

theorem addBd_zero (a : ℚ) (r : CatQ) :
    addBd (forcedOf noOv) a r = ⟨a * r.secondaries, a * r.pe, a * r.vc⟩ := by
  have h1 : (forcedOf noOv).secondaries = 0 := by with_unfolding_all rfl
  have h2 : (forcedOf noOv).pe = 0 := by with_unfolding_all rfl
  have h3 : (forcedOf noOv).vc = 0 := by with_unfolding_all rfl
  unfold addBd
  rw [h1, h2, h3, zero_add, zero_add, zero_add]

theorem catContrib_smul (a rc : ℚ) (ha : 0 ≤ a) (p : List ℚ) (s h t : ℕ) :
    (catContrib (a * rc) p s h).1 t = a * (catContrib rc p s h).1 t ∧
    (catContrib (a * rc) p s h).2 t = a * (catContrib rc p s h).2 t := by
  rw [catContrib_fst, catContrib_fst, catContrib_snd, catContrib_snd]
  rcases eq_or_lt_of_le ha with heq | hpos
  · rw [← heq]
    simp
  · have hiff : 0 < a * rc ↔ 0 < rc :=
      ⟨fun hh => by nlinarith, fun hh => mul_pos hpos hh⟩
    by_cases hrc : 0 < rc
    · rw [if_pos (hiff.mpr hrc), if_pos hrc, if_pos (hiff.mpr hrc), if_pos hrc]
      exact ⟨cfClosed_smul a rc p s h t, ufClosed_smul a rc ha p s h t⟩
    · rw [if_neg (fun hh => hrc (hiff.mp hh)), if_neg hrc,
        if_neg (fun hh => hrc (hiff.mp hh)), if_neg hrc]
      norm_num

theorem sumProjections_addBd_smul (P : CatP) (r : CatQ) (a : ℚ) (ha : 0 ≤ a) (s h t : ℕ) :
    (sumProjections P (addBd (forcedOf noOv) a r) s h).1 t =
      a * (sumProjections P r s h).1 t ∧
    (sumProjections P (addBd (forcedOf noOv) a r) s h).2 t =
      a * (sumProjections P r s h).2 t := by
  rw [addBd_zero]
  obtain ⟨s1, s2⟩ := catContrib_smul a r.secondaries ha P.secondaries s h t
  obtain ⟨p1, p2⟩ := catContrib_smul a r.pe ha P.pe s h t
  obtain ⟨v1, v2⟩ := catContrib_smul a r.vc ha P.vc s h t
  constructor
  · show (catContrib (a * r.secondaries) P.secondaries s h).1 t +
      ((catContrib (a * r.pe) P.pe s h).1 t + (catContrib (a * r.vc) P.vc s h).1 t) =
      a * ((catContrib r.secondaries P.secondaries s h).1 t +
        ((catContrib r.pe P.pe s h).1 t + (catContrib r.vc P.vc s h).1 t))
    rw [s1, p1, v1]
    ring
  · show (catContrib (a * r.secondaries) P.secondaries s h).2 t +
      ((catContrib (a * r.pe) P.pe s h).2 t + (catContrib (a * r.vc) P.vc s h).2 t) =
      a * ((catContrib r.secondaries P.secondaries s h).2 t +
        ((catContrib r.pe P.pe s h).2 t + (catContrib r.vc P.vc s h).2 t))
    rw [s2, p2, v2]
    ring

theorem isFeasibleB_downward (capital : ℚ) (P : CatP) (lf lu : ℕ → ℚ) (y h : ℕ)
    (active : CatQ) (a b : ℚ) (ha : 0 ≤ a) (hab : a ≤ b)
    (hGood : ∀ t, t < h → 0 ≤ lu t ∧ lu t ≤ capital + cumF lf t)
    (hb : isFeasibleB capital P lf lu y h (forcedOf noOv) active b = true) :
    isFeasibleB capital P lf lu y h (forcedOf noOv) active a = true := by
  have hb0 : 0 ≤ b := le_trans ha hab
  have cum_pt : ∀ x : ℚ, 0 ≤ x → ∀ t : ℕ,
      cumF (addF lf (sumProjections P (addBd (forcedOf noOv) x active) y h).1) t =
        cumF lf t + x * cumF (sumProjections P active y h).1 t := by
    intro x hx t
    rw [cumF_addF]
    congr 1
    rw [← cumF_smul x ((sumProjections P active y h).1) t]
    exact cumF_congr _ _ t (fun u _ => (sumProjections_addBd_smul P active x hx y h u).1)
  have hbA : checkIntegrity capital lf lu
      (sumProjections P (addBd (forcedOf noOv) b active) y h).1
      (sumProjections P (addBd (forcedOf noOv) b active) y h).2 y h = true := hb
  rw [checkIntegrity_iff] at hbA
  show checkIntegrity capital lf lu
      (sumProjections P (addBd (forcedOf noOv) a active) y h).1
      (sumProjections P (addBd (forcedOf noOv) a active) y h).2 y h = true
  rw [checkIntegrity_iff]
  intro t ht hyt
  obtain ⟨c1, c2⟩ := hbA t ht hyt
  obtain ⟨g1, g2⟩ := hGood t ht
  rw [cum_pt b hb0 t, (sumProjections_addBd_smul P active b hb0 y h t).2] at c1
  rw [cum_pt b hb0 t] at c2
  rw [cum_pt a ha t, (sumProjections_addBd_smul P active a ha y h t).2]
  have hPsi : 0 ≤ (sumProjections P active y h).2 t :=
    sumProjections_unf_nonneg P active y h t
  constructor
  · rcases le_or_lt ((sumProjections P active y h).2 t)
      (cumF (sumProjections P active y h).1 t) with hcase | hcase
    · nlinarith [mul_nonneg ha (sub_nonneg.mpr hcase)]
    · nlinarith [mul_le_mul_of_nonneg_right hab (sub_nonneg.mpr (le_of_lt hcase))]
  · rcases le_or_lt 0 (cumF (sumProjections P active y h).1 t) with hcase | hcase
    · nlinarith [mul_nonneg ha hcase]
    · nlinarith [mul_le_mul_of_nonpos_right hab (le_of_lt hcase)]

theorem yearDecision_feasible (inp : SolverInput) (sm : Bool) (h : ℕ) (st : LoopState)
    (y : ℕ) (hcap : 0 ≤ inp.availableCapital) (hov : inp.manualOverrides y = noOv) :
    (yearDecision inp sm h st y).1 = 0 ∨
      ∃ best : ℚ, 0 ≤ best ∧ (yearDecision inp sm h st y).1 ≤ best ∧
        isFeasibleB inp.availableCapital inp.profiles st.flows st.unf y h (forcedOf noOv)
          (normalizeActive (activePre noOv
            (ratiosFor inp.selectedCategories (phaseRatios inp.rules (phaseOf y)))))
          best = true := by
  unfold yearDecision
  rw [hov]
  have hno : ¬(catQsum (activePre noOv
      (ratiosFor inp.selectedCategories (phaseRatios inp.rules (phaseOf y)))) = 0 ∧
      hasOv noOv = true) := by
    intro hc
    exact absurd hc.2 (by rw [show hasOv noOv = false from rfl]; simp)
  dsimp only
  rw [if_neg hno]
  have hfz : catQsum (forcedOf noOv) = 0 := by with_unfolding_all rfl
  dsimp only
  rw [hfz, zero_add]
  have hhi : 0 ≤ maxAdditionalOf inp.availableCapital inp.firstYearCap inp.maxYearlyChange
      sm y st.lastYearCommitment 0 :=
    maxAdditionalOf_nonneg _ _ _ _ _ _ _ hcap
  obtain ⟨hb0, hcase⟩ := binarySearchBest_spec
    (isFeasibleB inp.availableCapital inp.profiles st.flows st.unf y h (forcedOf noOv)
      (normalizeActive (activePre noOv
        (ratiosFor inp.selectedCategories (phaseRatios inp.rules (phaseOf y))))))
    _ hhi
  rcases hcase with hzero | hfeas
  · left
    rw [hzero]
    unfold floor1000
    norm_num
  · right
    exact ⟨_, hb0, floor1000_le _, hfeas⟩

theorem yearStep_good (inp : SolverInput) (sm : Bool) (h : ℕ) (st : LoopState) (y : ℕ)
    (hcap : 0 ≤ inp.availableCapital) (hov : inp.manualOverrides y = noOv)
    (hst : GoodState inp.availableCapital h st) :
    GoodState inp.availableCapital h (yearStep inp sm h st y) := by
  obtain ⟨ham, _, _, hbd⟩ := yearDecision_no_override inp sm h st y hcap hov
  have hfeas := yearDecision_feasible inp sm h st y hcap hov
  set D := yearDecision inp sm h st y with hD
  have hflows : (yearStep inp sm h st y).flows =
      addF st.flows (if 0 < D.1 then sumProjections inp.profiles D.2.1 y h
        else ((fun _ => 0), (fun _ => 0))).1 := rfl
  have hunf : (yearStep inp sm h st y).unf =
      addF st.unf (if 0 < D.1 then sumProjections inp.profiles D.2.1 y h
        else ((fun _ => 0), (fun _ => 0))).2 := rfl
  by_cases hpos : 0 < D.1
  · rcases hfeas with hzero | ⟨best, hbest0, hle, hfeasb⟩
    · rw [hzero] at hpos
      exact absurd hpos (lt_irrefl 0)
    · have hfeasA : isFeasibleB inp.availableCapital inp.profiles st.flows st.unf y h
          (forcedOf noOv) (normalizeActive (activePre noOv
            (ratiosFor inp.selectedCategories (phaseRatios inp.rules (phaseOf y)))))
          D.1 = true :=
        isFeasibleB_downward inp.availableCapital inp.profiles st.flows st.unf y h _
          D.1 best ham hle hst hfeasb
      have hkey : checkIntegrity inp.availableCapital st.flows st.unf
          (sumProjections inp.profiles (addBd (forcedOf noOv) D.1
            (normalizeActive (activePre noOv (ratiosFor inp.selectedCategories
              (phaseRatios inp.rules (phaseOf y)))))) y h).1
          (sumProjections inp.profiles (addBd (forcedOf noOv) D.1
            (normalizeActive (activePre noOv (ratiosFor inp.selectedCategories
              (phaseRatios inp.rules (phaseOf y)))))) y h).2 y h = true := hfeasA
      rw [← hbd] at hkey
      rw [checkIntegrity_iff] at hkey
      rw [if_pos hpos] at hflows hunf
      intro t ht
      constructor
      · rw [hunf]
        show 0 ≤ st.unf t + (sumProjections inp.profiles D.2.1 y h).2 t
        exact add_nonneg (hst t ht).1 (sumProjections_unf_nonneg _ _ _ _ _)
      · rw [hunf, hflows]
        rcases le_or_lt y t with hyt | htly
        · exact (hkey t ht hyt).1
        · have hz2 : (sumProjections inp.profiles D.2.1 y h).2 t = 0 :=
            (sumProjections_before _ _ _ _ t htly).2
          have hcz : cumF (sumProjections inp.profiles D.2.1 y h).1 t = 0 :=
            cumF_eq_zero_of _ t
              (fun s hs => (sumProjections_before _ _ _ _ s (lt_of_le_of_lt hs htly)).1)
          show st.unf t + (sumProjections inp.profiles D.2.1 y h).2 t ≤
            inp.availableCapital +
              cumF (addF st.flows (sumProjections inp.profiles D.2.1 y h).1) t
          rw [hz2, cumF_addF, hcz, add_zero, add_zero]
          exact (hst t ht).2
  · rw [if_neg hpos] at hflows hunf
    intro t ht
    obtain ⟨g1, g2⟩ := hst t ht
    constructor
    · rw [hunf]
      show (0 : ℚ) ≤ st.unf t + 0
      linarith
    · rw [hunf, hflows]
      show st.unf t + 0 ≤ inp.availableCapital + cumF (addF st.flows (fun _ => 0)) t
      rw [cumF_addF, cumF_zero, add_zero, add_zero]
      exact g2

theorem planLoop_good (inp : SolverInput) (sm : Bool)
    (hcap : 0 ≤ inp.availableCapital) (hov : ∀ y, inp.manualOverrides y = noOv) :
    GoodState inp.availableCapital (totalHorizonOf inp) (planLoop inp sm) := by
  unfold planLoop
  refine foldl_invariant _ _ ?_ _ _ ?_
  · intro st y hst
    exact yearStep_good inp sm (totalHorizonOf inp) st y hcap (hov y) hst
  · intro t ht
    constructor
    · exact le_refl 0
    · show (0 : ℚ) ≤ inp.availableCapital + cumF (fun _ => 0) t
      rw [cumF_zero]
      linarith

theorem report_fold (capital : ℚ) (sy : ℤ) (pH : ℕ) (final : LoopState) : ∀ n : ℕ,
    ((List.range n).foldl (reportStep sy pH final) (capital, [])).1 =
      capital + ((List.range n).map final.flows).sum ∧
    ∀ r ∈ ((List.range n).foldl (reportStep sy pH final) (capital, [])).2,
      ∃ t, t < n ∧ r.endBalance = capital + cumF final.flows t := by
  intro n
  induction n with
  | zero => exact ⟨by simp, by intro r hr; simp at hr⟩
  | succ n ih =>
    obtain ⟨ih1, ih2⟩ := ih
    have hstep : (List.range (n + 1)).foldl (reportStep sy pH final) (capital, []) =
        reportStep sy pH final
          ((List.range n).foldl (reportStep sy pH final) (capital, [])) n := by
      rw [List.range_succ, List.foldl_append, List.foldl_cons, List.foldl_nil]
    set S := (List.range n).foldl (reportStep sy pH final) (capital, []) with hS
    have hbal : S.1 + final.flows n = capital + cumF final.flows n := by
      rw [ih1]
      show capital + ((List.range n).map final.flows).sum + final.flows n =
        capital + ((List.range (n + 1)).map final.flows).sum
      rw [List.range_succ, List.map_append, List.sum_append]
      simp only [List.map_cons, List.map_nil, List.sum_cons, List.sum_nil]
      ring
    constructor
    · rw [hstep]
      show S.1 + final.flows n = capital + ((List.range (n + 1)).map final.flows).sum
      exact hbal
    · rw [hstep]
      intro r hr
      have h2 : (reportStep sy pH final S n).2 = S.2 ++
          [{ year := sy + n, netCashflow := final.flows n,
             endBalance := S.1 + final.flows n,
             totalCommitted :=
               if n < pH then ((final.commitments.get? n).map (·.amount)).getD 0 else 0,
             unfunded := final.unf n,
             breakdown :=
               if n < pH then ((final.commitments.get? n).map (·.breakdown)).getD ⟨0, 0, 0⟩
               else ⟨0, 0, 0⟩ }] := rfl
      rw [h2] at hr
      rcases List.mem_append.mp hr with hold | hnew
      · obtain ⟨t, htn, hEB⟩ := ih2 r hold
        exact ⟨t, Nat.lt_succ_of_lt htn, hEB⟩
      · rw [List.mem_singleton.mp hnew]
        exact ⟨n, Nat.lt_succ_self n, hbal⟩

theorem buildReport_endBalance (capital : ℚ) (sy : ℤ) (pH tH : ℕ) (final : LoopState) :
    ∀ r ∈ buildReport capital sy pH tH final, ∃ t, t < tH ∧
      r.endBalance = capital + cumF final.flows t :=
  (report_fold capital sy pH final tH).2

theorem chosen_cases (inp : SolverInput) :
    (chosen inp).1 = smoothedResult inp ∨ (chosen inp).1 = relaxedResult inp := by
  unfold chosen
  split_ifs <;> simp

/-- C1 (corrected): for every input with nonnegative availableCapital and no
manual overrides, every row of the returned annual report — whichever of the
smoothed or relaxed results was adopted — has endBalance ≥ 0, and in
particular endBalance ≥ -1.  The original claim also covered inputs with
manual overrides, which is refuted by c1_counterexample. -/
theorem c1_liquidity (inp : SolverInput) (hcap : 0 ≤ inp.availableCapital)
    (hov : ∀ y, inp.manualOverrides y = noOv) :
    ∀ r ∈ (solveCPT inp).annualReport, 0 ≤ r.endBalance ∧ (-1 : ℚ) ≤ r.endBalance := by
  intro r hr
  have hrep : (solveCPT inp).annualReport =
      (enrichLoop inp.availableCapital inp.profiles inp.navProfiles
        (chosen inp).1.commitments (chosen inp).1.annualReport).rows := rfl
  rw [hrep] at hr
  rcases enrich_mem inp.availableCapital inp.profiles inp.navProfiles
      (chosen inp).1.commitments (chosen inp).1.annualReport ⟨0, 0, 0, 0, []⟩ r hr with
    h0 | ⟨st2, r2, hr2, he⟩
  · exact absurd h0 (List.not_mem_nil r)
  · have hEB : r.endBalance = r2.endBalance := by
      rw [he]
      exact (enrichedRowOf_fields inp.availableCapital inp.profiles inp.navProfiles
        (chosen inp).1.commitments st2 r2).1
    rw [hEB]
    have hres : ∀ sm : Bool, ∀ r3 : ReportRow, r3 ∈ (runSolver inp sm).annualReport →
        0 ≤ r3.endBalance := by
      intro sm r3 hr3
      have hbr : (runSolver inp sm).annualReport =
          buildReport inp.availableCapital inp.startYear (pHorizonOf inp)
            (totalHorizonOf inp) (planLoop inp sm) := rfl
      rw [hbr] at hr3
      obtain ⟨t, ht, hEB2⟩ := buildReport_endBalance _ _ _ _ _ r3 hr3
      rw [hEB2]
      obtain ⟨hu0, hule⟩ := planLoop_good inp sm hcap hov t ht
      linarith
    rcases chosen_cases inp with hch | hch <;> rw [hch] at hr2
    · have h0le := hres true r2 hr2
      exact ⟨h0le, by linarith⟩
    · have h0le := hres false r2 hr2
      exact ⟨h0le, by linarith⟩

/-- C1 counterexample: with the year-0 manual override pe = 5,000,000 on
1,000,000 of capital the single report row has endBalance -4,000,000, far
below the -1 tolerance, refuting the claim for inputs with manual
overrides. -/
theorem c1_counterexample :
    (solveCPT c1cex).annualReport.map (fun r => r.endBalance) = [-4000000] ∧
      (-4000000 : ℚ) < -1 := by
  refine ⟨by with_unfolding_all rfl, by norm_num⟩

/-- C1 witness: a concrete no-override input (capital 1,000) whose first report
row has nonnegative endBalance. -/
theorem c1_witness :
    0 ≤ ((solveCPT c1wit).annualReport.headD defFullRow).endBalance ∧
      (-1 : ℚ) ≤ ((solveCPT c1wit).annualReport.headD defFullRow).endBalance := by
  have hne : (solveCPT c1wit).annualReport ≠ [] :=
    List.ne_nil_of_length_pos (of_decide_eq_true (by with_unfolding_all rfl))
  exact c1_liquidity c1wit (by with_unfolding_all rfl) (fun y => rfl)
    ((solveCPT c1wit).annualReport.headD defFullRow) (headD_mem_of_ne_nil _ _ hne)

/- ======================  claim C6  ====================== -/

theorem exceptIsOk_iff {α : Type} (x : Except Unit α) :
    x.isOk = true ↔ ∃ a, x = Except.ok a := by
  cases x with
  | error e =>
    constructor
    · intro h
      have hf : (false : Bool) = true := h
      exact absurd hf (by decide)
    · rintro ⟨a, ha⟩
      exact absurd ha (by simp)
  | ok a => exact ⟨fun _ => ⟨a, rfl⟩, fun _ => rfl⟩

theorem bind_ok_intro {α β : Type} (x : Except Unit α) (f : α → Except Unit β)
    (a : α) (hx : x = Except.ok a) (hf : ∃ b, f a = Except.ok b) :
    ∃ b, (x >>= f) = Except.ok b := by
  subst hx
  obtain ⟨b, hb⟩ := hf
  exact ⟨b, hb⟩

theorem bind_ok_elim {α β : Type} (x : Except Unit α) (f : α → Except Unit β)
    (h : ∃ b, (x >>= f) = Except.ok b) :
    ∃ a, x = Except.ok a ∧ ∃ b, f a = Except.ok b := by
  cases x with
  | error e =>
    obtain ⟨b, hb⟩ := h
    exact absurd (show (Except.error e : Except Unit β) = Except.ok b from hb) (by simp)
  | ok a =>
    obtain ⟨b, hb⟩ := h
    exact ⟨a, rfl, b, hb⟩

theorem ite_ok {α : Type} (c : Prop) [Decidable c] (x y2 : Except Unit α)
    (hx : ∃ a, x = Except.ok a) (hy : ∃ a, y2 = Except.ok a) :
    ∃ a, (if c then x else y2) = Except.ok a := by
  split_ifs
  · exact hx
  · exact hy

theorem ite_ok_elim {α : Type} (c : Prop) [Decidable c] (x y2 : Except Unit α)
    (h : ∃ a, (if c then x else y2) = Except.ok a) :
    (∃ a, x = Except.ok a) ∨ (∃ a, y2 = Except.ok a) := by
  split_ifs at h
  · exact Or.inl h
  · exact Or.inr h

theorem foldlM_ok {σ α : Type} (f : σ → α → Except Unit σ)
    (hf : ∀ s a, ∃ s2, f s a = Except.ok s2) :
    ∀ (l : List α) (s : σ), ∃ s2, l.foldlM f s = Except.ok s2 := by
  intro l
  induction l with
  | nil => intro s; exact ⟨s, rfl⟩
  | cons a l2 ih =>
    intro s
    obtain ⟨s1, hs1⟩ := hf s a
    exact bind_ok_intro _ _ s1 hs1 (ih s1)

theorem lookupProfile_ok (o : Option (List ℚ)) (ho : o.isSome = true) :
    ∃ p, lookupProfile o = Except.ok p := by
  cases o with
  | none => exact absurd ho (by simp)
  | some p => exact ⟨p, rfl⟩

theorem lookupProfile_isSome (o : Option (List ℚ)) (p : List ℚ)
    (h : lookupProfile o = Except.ok p) : o.isSome = true := by
  cases o with
  | none => exact absurd h (by simp [lookupProfile])
  | some q => rfl

theorem catContribE_ok (b : ℚ) (po : Option (List ℚ)) (s h : ℕ)
    (hpo : po.isSome = true) : ∃ v, catContribE b po s h = Except.ok v := by
  unfold catContribE
  split_ifs with hb
  · obtain ⟨p, hp⟩ := lookupProfile_ok po hpo
    exact bind_ok_intro _ _ p hp ⟨_, rfl⟩
  · exact ⟨_, rfl⟩

theorem sumProjectionsE_ok (P : CatPO) (bd : CatQ) (s h : ℕ)
    (h1 : P.secondaries.isSome = true) (h2 : P.pe.isSome = true)
    (h3 : P.vc.isSome = true) : ∃ v, sumProjectionsE P bd s h = Except.ok v := by
  unfold sumProjectionsE
  obtain ⟨v1, hv1⟩ := catContribE_ok bd.secondaries P.secondaries s h h1
  obtain ⟨v2, hv2⟩ := catContribE_ok bd.pe P.pe s h h2
  obtain ⟨v3, hv3⟩ := catContribE_ok bd.vc P.vc s h h3
  exact bind_ok_intro _ _ v1 hv1
    (bind_ok_intro _ _ v2 hv2 (bind_ok_intro _ _ v3 hv3 ⟨_, rfl⟩))

theorem isFeasibleE_ok (capital : ℚ) (P : CatPO) (lf lu : ℕ → ℚ) (y h : ℕ)
    (forced active : CatQ) (a : ℚ) (h1 : P.secondaries.isSome = true)
    (h2 : P.pe.isSome = true) (h3 : P.vc.isSome = true) :
    ∃ v, isFeasibleE capital P lf lu y h forced active a = Except.ok v := by
  unfold isFeasibleE
  obtain ⟨pr, hpr⟩ := sumProjectionsE_ok P (addBd forced a active) y h h1 h2 h3
  exact bind_ok_intro _ _ pr hpr ⟨_, rfl⟩

theorem binarySearchBestE_ok (feasible : ℚ → Except Unit Bool) (hi : ℚ)
    (hfe : ∀ m, ∃ b, feasible m = Except.ok b) :
    ∃ v, binarySearchBestE feasible hi = Except.ok v := by
  unfold binarySearchBestE
  have hstep : ∀ (s : ℚ × ℚ × ℚ) (a : ℕ), ∃ s2,
      (fun (st : ℚ × ℚ × ℚ) (_ : ℕ) => do
        let mid := (st.1 + st.2.1) / 2
        let f ← feasible mid
        pure (if f then (mid, st.2.1, mid) else (st.1, mid, st.2.2))) s a = Except.ok s2 := by
    intro s a
    obtain ⟨b, hb⟩ := hfe ((s.1 + s.2.1) / 2)
    exact bind_ok_intro _ _ b hb ⟨_, rfl⟩
  obtain ⟨s2, hs2⟩ := foldlM_ok _ hstep (List.range 20) ((0 : ℚ), hi, (0 : ℚ))
  exact bind_ok_intro _ _ s2 hs2 ⟨_, rfl⟩

theorem yearStepE_ok (inp : SolverInputE) (sm : Bool) (h : ℕ)
    (h1 : inp.profiles.secondaries.isSome = true) (h2 : inp.profiles.pe.isSome = true)
    (h3 : inp.profiles.vc.isSome = true) :
    ∀ (st : LoopState) (y : ℕ), ∃ st2, yearStepE inp sm h st y = Except.ok st2 := by
  intro st y
  unfold yearStepE
  dsimp only
  refine ite_ok _ _ _ ?_ ?_
  · refine bind_ok_intro _ _ _ rfl ?_
    refine ite_ok _ _ _ ?_ ?_
    · obtain ⟨v, hv⟩ := sumProjectionsE_ok inp.profiles _ y h h1 h2 h3
      exact bind_ok_intro _ _ v hv ⟨_, rfl⟩
    · exact bind_ok_intro _ _ _ rfl ⟨_, rfl⟩
  · obtain ⟨b0, hb0⟩ := binarySearchBestE_ok _ _ (fun m =>
      isFeasibleE_ok inp.availableCapital inp.profiles st.flows st.unf y h _ _ m h1 h2 h3)
    refine bind_ok_intro _ _ b0 hb0 ?_
    refine bind_ok_intro _ _ _ rfl ?_
    refine ite_ok _ _ _ ?_ ?_
    · obtain ⟨v, hv⟩ := sumProjectionsE_ok inp.profiles _ y h h1 h2 h3
      exact bind_ok_intro _ _ v hv ⟨_, rfl⟩
    · exact bind_ok_intro _ _ _ rfl ⟨_, rfl⟩

theorem planLoopE_ok (inp : SolverInputE) (sm : Bool)
    (h1 : inp.profiles.secondaries.isSome = true) (h2 : inp.profiles.pe.isSome = true)
    (h3 : inp.profiles.vc.isSome = true) :
    ∃ final, planLoopE inp sm = Except.ok final := by
  unfold planLoopE
  exact foldlM_ok _ (yearStepE_ok inp sm (totalHorizonOfE inp) h1 h2 h3)
    (List.range (pHorizonOfE inp)) initState

theorem runSolverE_ok (inp : SolverInputE) (sm : Bool)
    (h1 : inp.profiles.secondaries.isSome = true) (h2 : inp.profiles.pe.isSome = true)
    (h3 : inp.profiles.vc.isSome = true) :
    ∃ v, runSolverE inp sm = Except.ok v := by
  unfold runSolverE
  obtain ⟨final, hf⟩ := planLoopE_ok inp sm h1 h2 h3
  exact bind_ok_intro _ _ final hf ⟨_, rfl⟩

theorem catRowContribE_ok (b : ℚ) (profO : Option (List ℚ)) (navProf : List ℚ)
    (age : ℤ) (hpo : profO.isSome = true) :
    ∃ v, catRowContribE b profO navProf age = Except.ok v := by
  unfold catRowContribE
  by_cases hb : 0 < b
  · rw [if_pos hb]
    obtain ⟨p, hp⟩ := lookupProfile_ok profO hpo
    exact bind_ok_intro _ _ p hp ⟨_, rfl⟩
  · rw [if_neg hb]
    exact ⟨_, rfl⟩

theorem commRowContribE_ok (P : CatPO) (NP : CatP) (rYear : ℤ) (c : Commitment)
    (h1 : P.secondaries.isSome = true) (h2 : P.pe.isSome = true)
    (h3 : P.vc.isSome = true) : ∃ v, commRowContribE P NP rYear c = Except.ok v := by
  unfold commRowContribE
  obtain ⟨v1, hv1⟩ := catRowContribE_ok c.breakdown.secondaries P.secondaries
    NP.secondaries (rYear - c.year) h1
  obtain ⟨v2, hv2⟩ := catRowContribE_ok c.breakdown.pe P.pe NP.pe (rYear - c.year) h2
  obtain ⟨v3, hv3⟩ := catRowContribE_ok c.breakdown.vc P.vc NP.vc (rYear - c.year) h3
  exact bind_ok_intro _ _ v1 hv1
    (bind_ok_intro _ _ v2 hv2 (bind_ok_intro _ _ v3 hv3 ⟨_, rfl⟩))

theorem rowTotalsE_ok (P : CatPO) (NP : CatP) (comms : List Commitment) (rYear : ℤ)
    (h1 : P.secondaries.isSome = true) (h2 : P.pe.isSome = true)
    (h3 : P.vc.isSome = true) : ∃ v, rowTotalsE P NP comms rYear = Except.ok v := by
  unfold rowTotalsE
  refine foldlM_ok _ ?_ comms ((0 : ℚ), (0 : ℚ), (0 : ℚ))
  intro acc c
  obtain ⟨x, hx⟩ := commRowContribE_ok P NP rYear c h1 h2 h3
  exact bind_ok_intro _ _ x hx ⟨_, rfl⟩

theorem enrichStepE_ok (capital : ℚ) (P : CatPO) (NP : CatP) (comms : List Commitment)
    (h1 : P.secondaries.isSome = true) (h2 : P.pe.isSome = true)
    (h3 : P.vc.isSome = true) : ∀ (st : EnrichState) (r : ReportRow),
    ∃ st2, enrichStepE capital P NP comms st r = Except.ok st2 := by
  intro st r
  unfold enrichStepE
  obtain ⟨x, hx⟩ := rowTotalsE_ok P NP comms r.year h1 h2 h3
  exact bind_ok_intro _ _ x hx ⟨_, rfl⟩

theorem enrichLoopE_ok (capital : ℚ) (P : CatPO) (NP : CatP) (comms : List Commitment)
    (rows : List ReportRow) (h1 : P.secondaries.isSome = true)
    (h2 : P.pe.isSome = true) (h3 : P.vc.isSome = true) :
    ∃ v, enrichLoopE capital P NP comms rows = Except.ok v := by
  unfold enrichLoopE
  exact foldlM_ok _ (enrichStepE_ok capital P NP comms h1 h2 h3) rows ⟨0, 0, 0, 0, []⟩

theorem catMetricsE_ok (P : CatPO) (h1 : P.secondaries.isSome = true)
    (h2 : P.pe.isSome = true) (h3 : P.vc.isSome = true) :
    ∃ v, catMetricsE P = Except.ok v := by
  unfold catMetricsE
  obtain ⟨p1, hp1⟩ := lookupProfile_ok P.secondaries h1
  obtain ⟨p2, hp2⟩ := lookupProfile_ok P.pe h2
  obtain ⟨p3, hp3⟩ := lookupProfile_ok P.vc h3
  exact bind_ok_intro _ _ p1 hp1
    (bind_ok_intro _ _ p2 hp2 (bind_ok_intro _ _ p3 hp3 ⟨_, rfl⟩))

/-- C6 (corrected): the solver raises exactly when some cashflow profile is
missing from the configuration — whether or not that category is selected,
because the metrics stage dereferences all three profiles unconditionally —
and never merely because availableCapital is negative; for numerically
degenerate input (capital 0, nothing selected, all profiles present) it
returns a plan with zero commitment amounts and zero balances.  The original
claim (failure iff a selected category lacks a profile or capital is
negative/non-finite) is refuted by c6_counterexample. -/
theorem c6_failure_semantics (inp : SolverInputE) :
    ((solveCPTE inp).isOk = true ↔
      (inp.profiles.secondaries.isSome = true ∧ inp.profiles.pe.isSome = true ∧
        inp.profiles.vc.isSome = true)) ∧
    (solveCPTE c6deg).map (fun p =>
      (p.commitments.map (fun c => c.amount), p.metrics.totalCommitted,
        p.annualReport.map (fun r => r.endBalance))) =
      Except.ok ([0], 0, [0]) := by
  constructor
  · rw [exceptIsOk_iff]
    constructor
    · intro hOk
      unfold solveCPTE at hOk
      obtain ⟨resA, hA, hOk2⟩ := bind_ok_elim _ _ hOk
      have hcm : ∃ cm, catMetricsE inp.profiles = Except.ok cm := by
        rcases ite_ok_elim _ _ _ hOk2 with hThen | hElse
        · obtain ⟨resB, hB, hOk3⟩ := bind_ok_elim _ _ hThen
          obtain ⟨pk, hpk, hOk4⟩ := bind_ok_elim _ _ hOk3
          obtain ⟨cm, hcm0, _⟩ := bind_ok_elim _ _ hOk4
          exact ⟨cm, hcm0⟩
        · obtain ⟨pk, hpk, hOk4⟩ := bind_ok_elim _ _ hElse
          obtain ⟨cm, hcm0, _⟩ := bind_ok_elim _ _ hOk4
          exact ⟨cm, hcm0⟩
      obtain ⟨ps, hps, hcm2⟩ := bind_ok_elim _ _ hcm
      obtain ⟨pp, hpp, hcm3⟩ := bind_ok_elim _ _ hcm2
      obtain ⟨pv, hpv, _⟩ := bind_ok_elim _ _ hcm3
      exact ⟨lookupProfile_isSome _ _ hps, lookupProfile_isSome _ _ hpp,
        lookupProfile_isSome _ _ hpv⟩
    · rintro ⟨h1, h2, h3⟩
      unfold solveCPTE
      obtain ⟨resA, hA⟩ := runSolverE_ok inp true h1 h2 h3
      refine bind_ok_intro _ _ resA hA ?_
      refine ite_ok _ _ _ ?_ ?_
      · obtain ⟨resB, hB⟩ := runSolverE_ok inp false h1 h2 h3
        refine bind_ok_intro _ _ resB hB ?_
        refine bind_ok_intro _ _ _ rfl ?_
        obtain ⟨cm, hcm⟩ := catMetricsE_ok inp.profiles h1 h2 h3
        refine bind_ok_intro _ _ cm hcm ?_
        obtain ⟨en, hen⟩ := enrichLoopE_ok inp.availableCapital inp.profiles
          inp.navProfiles _ _ h1 h2 h3
        exact bind_ok_intro _ _ en hen ⟨_, rfl⟩
      · refine bind_ok_intro _ _ _ rfl ?_
        obtain ⟨cm, hcm⟩ := catMetricsE_ok inp.profiles h1 h2 h3
        refine bind_ok_intro _ _ cm hcm ?_
        obtain ⟨en, hen⟩ := enrichLoopE_ok inp.availableCapital inp.profiles
          inp.navProfiles _ _ h1 h2 h3
        exact bind_ok_intro _ _ en hen ⟨_, rfl⟩
  · with_unfolding_all rfl

/-- C6 counterexample: availableCapital is negative (structurally invalid per
the claim, so solveCPT ought to fail) yet the solver succeeds and returns a
plan. -/
theorem c6_counterexample :
    c6neg.availableCapital < 0 ∧ (solveCPTE c6neg).isOk = true := by
  refine ⟨by with_unfolding_all rfl, by with_unfolding_all rfl⟩

/-- C6 witness: with all three profiles present the solver succeeds. -/
theorem c6_witness :
    c6wit.profiles.secondaries.isSome = true ∧ c6wit.profiles.pe.isSome = true ∧
      c6wit.profiles.vc.isSome = true ∧ (solveCPTE c6wit).isOk = true :=
  ⟨rfl, rfl, rfl, (c6_failure_semantics c6wit).1.mpr ⟨rfl, rfl, rfl⟩⟩

end CPT
